import Mathlib

/-!
A verification development for the Hermes gateway's request-routing core.
Each Lean definition is a shallow embedding of the corresponding Python
function; theorems settle the specification's claims about them.

String processing is embedded structurally over `List Char` so that all
definitions reduce by kernel evaluation; `String` values are unpacked via
`String.data` and repacked with the anonymous constructor.
-/

namespace Hermes

/-! ## Association lists (Python `dict` with insertion order) -/

/-- First binding for `k`, like `dict.get`. -/
def lookupA {α β : Type} [DecidableEq α] (m : List (α × β)) (k : α) :
    Option β :=
  match m with
  | [] => none
  | (k', v) :: rest => if k' = k then some v else lookupA rest k

/-- `m[k] = v`: replace the first binding in place, else append (Python
dict semantics: value updated, key order = first-insertion order). -/
def setA {α β : Type} [DecidableEq α] (m : List (α × β)) (k : α) (v : β) :
    List (α × β) :=
  match m with
  | [] => [(k, v)]
  | (k', v') :: rest =>
    if k' = k then (k', v) :: rest else (k', v') :: setA rest k v

/-! ## Character/string primitives -/

/-- ASCII lowercase of one character. -/
def lowerChar (c : Char) : Char :=
  if 'A' ≤ c && c ≤ 'Z' then Char.ofNat (c.toNat + 32) else c

/-- Lowercase a character list. -/
def lowerL (l : List Char) : List Char := l.map lowerChar

/-- Strip leading and trailing whitespace (`str.strip()`). -/
def trimL (l : List Char) : List Char :=
  ((l.dropWhile Char.isWhitespace).reverse.dropWhile Char.isWhitespace).reverse

/-- Split at every character satisfying `p`, keeping empty segments
(like `re.split` on a single character class occurrence). -/
def splitChP (p : Char → Bool) : List Char → List (List Char)
  | [] => [[]]
  | c :: cs =>
    let r := splitChP p cs
    if p c then [] :: r
    else
      match r with
      | [] => [[c]]
      | s :: rest => (c :: s) :: rest

/-! ## Model normalizer (`src/hermes/utils/model_normalizer.py`) -/

/-- The `VARIANT_TOKENS` set. -/
def variantTokens : List (List Char) :=
  ["latest".data, "default".data, "stable".data, "fast".data, "turbo".data,
   "slow".data, "high".data, "low".data, "medium".data, "mini".data,
   "lite".data, "light".data, "pro".data, "ultra".data, "think".data,
   "thinking".data, "instruct".data, "chat".data, "online".data, "beta".data,
   "preview".data, "docs".data, "free".data, "max".data, "xhigh".data]

/-- `PREFIX_REGEX.sub("", s)`: remove one leading `models/`, `model/` or
`m/`, case-insensitively (the regex is anchored at the start). -/
def stripModelTag (l : List Char) : List Char :=
  let low := lowerL l
  if "models/".data.isPrefixOf low then l.drop 7
  else if "model/".data.isPrefixOf low then l.drop 6
  else if "m/".data.isPrefixOf low then l.drop 2
  else l

/-- A character of the `SEPARATOR_REGEX` class `[-_\s:]`. -/
def isSepChar (c : Char) : Bool :=
  c = '-' || c = '_' || c = ':' || c.isWhitespace

/-- Token matches `^\d{4,}$` (long numeric date/build tag). -/
def isLongNumeric (t : List Char) : Bool :=
  t.length ≥ 4 && t.all Char.isDigit

/-- A nonempty all-digit string. -/
def isDigitStr (t : List Char) : Bool :=
  t.length > 0 && t.all Char.isDigit

/-- Digits to a natural number. -/
def digitsToNat (t : List Char) : Nat :=
  t.foldl (fun n c => n * 10 + (c.toNat - '0'.toNat)) 0

/-- `parse_version`: match `^v?(\d+(?:\.\d+)+|\d+)$`, i.e. an optional
`v` followed by one or more dot-separated digit groups. -/
def parse_version (t : List Char) : Option (List Nat) :=
  let s := match t with
           | 'v' :: rest => rest
           | _ => t
  let parts := splitChP (· = '.') s
  if s ≠ [] && parts.all isDigitStr then some (parts.map digitsToNat)
  else none

/-- Negative of the first nonzero element (used when the left list has
run out in the padded comparison). -/
def firstNonzeroNeg : List Nat → Int
  | [] => 0
  | b :: bs => if b ≠ 0 then -(b : Int) else firstNonzeroNeg bs

/-- `compare_version_parts`: compare padding the shorter list with 0,
returning the first nonzero difference. -/
def compare_version_parts : List Nat → List Nat → Int
  | [], bs => firstNonzeroNeg bs
  | a :: as', [] => if a ≠ 0 then (a : Int) else compare_version_parts as' []
  | a :: as', b :: bs =>
    if a ≠ b then (a : Int) - (b : Int) else compare_version_parts as' bs

structure NormalizedModel where
  raw : String
  cleaned : String
  canonical : String
  family_key : String
  version_parts : List Nat
  deriving Repr, DecidableEq

/-- The cleaned form: strip whitespace, drop the model tag, lowercase. -/
def cleanedOf (raw : List Char) : List Char :=
  lowerL (stripModelTag (trimL raw))

/-- `cleaned.split("/")[-1] or cleaned` when a `/` is present. -/
def withoutVendor (cleaned : List Char) : List Char :=
  if cleaned.any (· = '/') then
    match (splitChP (· = '/') cleaned).reverse with
    | [] => cleaned
    | seg :: _ => if seg = [] then cleaned else seg
  else cleaned

/-- The nonempty tokens of the vendor-stripped form. -/
def tokensOf (wv : List Char) : List (List Char) :=
  (splitChP isSepChar wv).filter (fun t => t ≠ [])

/-- One iteration of the token loop: the accumulator holds
(version token lists, canonical tokens, family tokens). -/
def tokenStep (acc : List (List Nat) × List (List Char) × List (List Char))
    (token : List Char) :
    List (List Nat) × List (List Char) × List (List Char) :=
  let (versions, canon, fam) := acc
  if isLongNumeric token then acc
  else
    match parse_version token with
    | some v => (versions ++ [v], canon ++ [token], fam)
    | none =>
      if token ∈ variantTokens then acc
      else (versions, canon ++ [token], fam ++ [token])

/-- `"-".join(tokens)`. -/
def joinDash : List (List Char) → List Char
  | [] => []
  | [t] => t
  | t :: rest => t ++ '-' :: joinDash rest

/-- `normalize_model_name`. The accumulator `acc` is
(version token lists, canonical tokens, family tokens). -/
def normalize_model_name (raw : String) : NormalizedModel :=
  let cleaned := cleanedOf raw.data
  let wv := withoutVendor cleaned
  let acc := (tokensOf wv).foldl tokenStep ([], [], [])
  let canonical_base := joinDash acc.2.1
  let family_base := joinDash acc.2.2
  { raw := raw
    cleaned := ⟨cleaned⟩
    canonical := ⟨if canonical_base = [] then wv else canonical_base⟩
    family_key := ⟨if family_base = [] then wv else family_base⟩
    version_parts := acc.1.headD [] }

/-! ## Alias maps (`build_model_alias_maps`) -/

structure Candidate where
  canonical : String
  version : List Nat
  deriving Repr, DecidableEq

structure FamilyEntry where
  variants : List String
  candidates : List Candidate
  deriving Repr, DecidableEq

structure ModelAliasMaps where
  canonical_to_variants : List (String × List String)
  variant_to_canonical : List (String × String)
  deriving Repr, DecidableEq

/-- Python `a or b` on strings: `b` when `a` is empty. -/
def orElse (a b : String) : String := if a = "" then b else a

/-- `info.family_key or info.canonical or info.cleaned`. -/
def fkOf (raw : String) : String :=
  let info := normalize_model_name raw
  orElse info.family_key (orElse info.canonical info.cleaned)

/-- `entry["variants"].add(raw)`: set insertion. -/
def newVariants (entry : FamilyEntry) (raw : String) : List String :=
  if raw ∈ entry.variants then entry.variants else entry.variants ++ [raw]

/-- The candidate record appended for one raw identifier. -/
def candOf (raw : String) : Candidate :=
  let info := normalize_model_name raw
  ⟨orElse info.canonical info.cleaned, info.version_parts⟩

/-- Add one raw identifier to the family map. `variants` is a set:
insert only when absent. -/
def addRaw (fm : List (String × FamilyEntry)) (raw : String) :
    List (String × FamilyEntry) :=
  let entry := (lookupA fm (fkOf raw)).getD ⟨[], []⟩
  setA fm (fkOf raw) ⟨newVariants entry raw, entry.candidates ++ [candOf raw]⟩

/-- The family map for a provider set; only the `models` lists matter. -/
def familyMap (modelsByProvider : List (List String)) :
    List (String × FamilyEntry) :=
  (modelsByProvider.flatMap id).foldl addRaw []

/-- Python list `<` on version lists (lexicographic; a strict prefix is
smaller). This is the order `list.sort(key=...)` uses: NOT the padded
order of `compare_version_parts`, which the builder never calls. -/
def pyLt : List Nat → List Nat → Bool
  | [], [] => false
  | [], _ :: _ => true
  | _ :: _, [] => false
  | a :: as', b :: bs => a < b || (a = b && pyLt as' bs)

/-- Keep the running best; a strictly greater version replaces it. -/
def combineCand (best x : Candidate) : Candidate :=
  if pyLt best.version x.version then x else best

/-- `with_version.sort(key=version, reverse=True); with_version[0]`:
the sort is stable, so the result is the first-seen candidate whose
version is maximal in Python's list order. -/
def pickPreferred (c : Candidate) (cs : List Candidate) : Candidate :=
  cs.foldl combineCand c

/-- The preferred candidate of one family entry. -/
def preferredOf (entry : FamilyEntry) : Candidate :=
  match entry.candidates.filter (fun c => c.version ≠ []) with
  | [] => entry.candidates.headD ⟨"", []⟩
  | c :: cs => pickPreferred c cs

/-- One iteration of `for variant in variant_set`: write the variant's
normalized canonical and the raw variant into the inverse map. -/
def v2cStep (pc : String) (m : List (String × String)) (v : String) :
    List (String × String) :=
  setA (setA m (normalize_model_name v).canonical pc) v pc

/-- Process one family: choose the preferred candidate and extend both
maps. -/
def familyStep (maps : ModelAliasMaps) (entry : FamilyEntry) :
    ModelAliasMaps :=
  let preferred := preferredOf entry
  let c2v := setA maps.canonical_to_variants preferred.canonical entry.variants
  let v2c := entry.variants.foldl (v2cStep preferred.canonical)
    maps.variant_to_canonical
  let v2c := setA v2c preferred.canonical preferred.canonical
  let v2c := setA v2c (normalize_model_name preferred.canonical).canonical
    preferred.canonical
  { canonical_to_variants := c2v, variant_to_canonical := v2c }

/-- `build_model_alias_maps`. -/
def build_model_alias_maps (modelsByProvider : List (List String)) :
    ModelAliasMaps :=
  (familyMap modelsByProvider).foldl (fun maps kv => familyStep maps kv.2)
    ⟨[], []⟩

/-- Every value stored in `variant_to_canonical` is a key of
`canonical_to_variants`. -/
def MapsLinked (maps : ModelAliasMaps) : Prop :=
  ∀ k c, lookupA maps.variant_to_canonical k = some c →
    (lookupA maps.canonical_to_variants c).isSome = true

/-- The `-`-join of the surviving canonical tokens of `raw`. -/
def canonicalJoinOf (raw : String) : List Char :=
  joinDash (((tokensOf (withoutVendor (cleanedOf raw.data))).foldl tokenStep
    ([], [], [])).2.1)

/-- The `-`-join of the surviving family tokens of `raw`. -/
def familyJoinOf (raw : String) : List Char :=
  joinDash (((tokensOf (withoutVendor (cleanedOf raw.data))).foldl tokenStep
    ([], [], [])).2.2)

/-- Modelled from the spec's words for claim C3: the canonical with the
empty join falling back to the CLEANED form (the prefix-stripped
lowercased input), as the claim asserts. The code actually falls back to
the vendor-stripped form. -/
def claimCanonicalFallbackCleaned (raw : String) : String :=
  if canonicalJoinOf raw = [] then ⟨cleanedOf raw.data⟩
  else ⟨canonicalJoinOf raw⟩

/-- Reference characterisation of a stable descending sort's head: the
first-seen candidate whose version is maximal in Python's list order. -/
def firstMaxPy (c : Candidate) : List Candidate → Candidate
  | [] => c
  | x :: xs => combineCand c (firstMaxPy x xs)

/-- Modelled from the claim's words for C2: the first-seen candidate
maximal under the padded comparison `compare_version_parts`. -/
def claimPreferredPadded (l : List Candidate) : Option Candidate :=
  l.find? (fun c =>
    l.all (fun d => decide (compare_version_parts d.version c.version ≤ 0)))

/-! ## Router scorer (`src/hermes/services/routing_score_service.py`)

Machine floats are modelled by real numbers. The two random draws made
by `score_for` (`random.betavariate` and `random.random`) and the one
implicit in `update` are supplied as oracle inputs, so every operation
is a deterministic function of its inputs. -/

structure ProviderStats where
  alpha : ℝ
  beta : ℝ
  latency_ewma : ℝ
  last_updated : ℤ
  samples : ℕ
  total_success : ℕ
  total_failure : ℕ

def PRIOR_ALPHA : ℝ := 1
def PRIOR_BETA : ℝ := 1
def ALPHA_EWMA : ℝ := 0.2
def DECAY_HALF_LIFE_MS : ℤ := 12 * 60 * 60 * 1000

/-- `2 ** (-age_ms / DECAY_HALF_LIFE_MS)`. -/
noncomputable def decayFactor (age_ms : ℤ) : ℝ :=
  (2 : ℝ) ^ (-(age_ms : ℝ) / (DECAY_HALF_LIFE_MS : ℝ))

/-- `_apply_decay`: shrink `alpha` and `beta` toward the prior. `now`
and the stamps are epoch milliseconds. -/
noncomputable def applyDecay (stat : ProviderStats) (now : ℤ) :
    ProviderStats :=
  if stat.last_updated = 0 then stat
  else if now - stat.last_updated ≤ 0 then stat
  else
    let decay := decayFactor (now - stat.last_updated)
    { stat with
      alpha := PRIOR_ALPHA + (stat.alpha - PRIOR_ALPHA) * decay
      beta := PRIOR_BETA + (stat.beta - PRIOR_BETA) * decay }

/-- The per-class `_stats` dictionary. -/
def RState : Type := List (String × ProviderStats)

/-- `f"{provider_id}:{model}"`. -/
def rkey (provider_id model : String) : String :=
  provider_id ++ ":" ++ model

/-- Step 2 of `update`: bump `alpha` on success, else `beta`. -/
def observeOutcome (stat : ProviderStats) (success : Bool) : ProviderStats :=
  if success then
    { stat with alpha := stat.alpha + 1,
                total_success := stat.total_success + 1 }
  else
    { stat with beta := stat.beta + 1,
                total_failure := stat.total_failure + 1 }

/-- Step 3 of `update`: EWMA with smoothing `ALPHA_EWMA` when a latency
was measured. -/
def observeLatency (stat : ProviderStats) (latency_ms : Option ℝ) :
    ProviderStats :=
  match latency_ms with
  | none => stat
  | some lat =>
    { stat with latency_ewma :=
        (1 - ALPHA_EWMA) * stat.latency_ewma + ALPHA_EWMA * lat }

/-- Step 4 of `update`: bump the sample count and stamp `last_updated`. -/
def stampStat (stat : ProviderStats) (now : ℤ) : ProviderStats :=
  { stat with samples := stat.samples + 1, last_updated := now }

/-- `RoutingScoreService.update`. -/
noncomputable def scorerUpdate (st : RState) (provider_id model : String)
    (success : Bool) (latency_ms : Option ℝ) (now : ℤ) : RState :=
  let key := rkey provider_id model
  let stat := (lookupA st key).getD
    ⟨PRIOR_ALPHA, PRIOR_BETA, 800, now, 0, 0, 0⟩
  setA st key
    (stampStat (observeLatency (observeOutcome (applyDecay stat now) success)
      latency_ms) now)

/-- `_betavariate`: `random.betavariate` raises `ValueError` exactly
when a parameter is not positive, selecting the fallback; otherwise the
draw (an oracle input here) is returned. -/
noncomputable def betavariate (draw : ℝ) (a b : ℝ) : ℝ :=
  if 0 < a ∧ 0 < b then draw else a / (a + b)

/-- The logistic latency penalty of `score_for`. -/
noncomputable def latencyMultiplier (ewma : ℝ) : ℝ :=
  1 / (1 + Real.exp ((ewma - 3000) / 1000))

/-- `RoutingScoreService.score_for`. Returns the score and the state it
leaves behind: `_apply_decay` mutates the stored record in place, and
`score_for` never restores `last_updated`, so the decayed parameters are
persisted with an unchanged stamp. `draw` is the Beta sample and `u`
the uniform `random.random()` value. -/
noncomputable def score_for (st : RState) (provider_id model : String)
    (draw u : ℝ) (now : ℤ) : ℝ × RState :=
  let key := rkey provider_id model
  match lookupA st key with
  | none => (betavariate draw PRIOR_ALPHA PRIOR_BETA, st)
  | some stat =>
    let stat := applyDecay stat now
    let sampled := betavariate draw stat.alpha stat.beta
    let lm := latencyMultiplier stat.latency_ewma
    (sampled * 0.8 + sampled * 0.2 * lm + u * 0.005, setA st key stat)

/-- One observable call against the scorer. -/
inductive ROp where
  | upd (provider_id model : String) (success : Bool)
      (latency_ms : Option ℝ) (now : ℤ)
  | score (provider_id model : String) (draw u : ℝ) (now : ℤ)

noncomputable def runOp (st : RState) : ROp → RState
  | .upd p m s l n => scorerUpdate st p m s l n
  | .score p m d u n => (score_for st p m d u n).2

/-- The scorer state after a call sequence, starting from the empty
`_stats` map. -/
noncomputable def runOps (ops : List ROp) : RState := ops.foldl runOp []

/-- Every stored arm has `alpha ≥ 1` and `beta ≥ 1`. -/
def StatsInv (st : RState) : Prop :=
  ∀ k s, lookupA st k = some s → 1 ≤ s.alpha ∧ 1 ≤ s.beta

/-- Modelled from the claim's words for C5: the score formula
`p·0.8 + p·0.2·latency_mult + jitter` the claim asserts for EVERY
candidate arm, including a never-updated one (prior EWMA 800 ms). -/
noncomputable def claimScoreFormula (draw u ewma : ℝ) : ℝ :=
  draw * 0.8 + draw * 0.2 * latencyMultiplier ewma + u * 0.005

/-! ## Circuit breaker (`src/hermes/services/circuit_breaker.py`)

Wall-clock seconds are modelled by integers. The breaker is fully
deterministic, so the embedding is computable. -/

inductive CircuitState where
  | closed
  | opened
  | halfOpen
  deriving DecidableEq, Repr

structure CircuitStats where
  state : CircuitState
  failure_count : Nat
  success_count : Nat
  last_failure_time : Int
  opened_at : Int
  deriving DecidableEq, Repr

structure CircuitBreaker where
  failure_threshold : Nat
  recovery_timeout : Int
  success_threshold : Nat
  deriving DecidableEq, Repr

/-- `CIRCUIT_FAILURE_THRESHOLD` environment default. -/
def CIRCUIT_FAILURE_THRESHOLD : Nat := 5

/-- `CIRCUIT_RECOVERY_TIMEOUT` environment default (seconds). -/
def CIRCUIT_RECOVERY_TIMEOUT : Int := 30

/-- `CircuitBreaker.__init__`: a missing (or zero, by Python's `or`)
argument falls back to the config value. -/
def mkCircuitBreaker (failure_threshold : Option Nat)
    (recovery_timeout : Option Int) (success_threshold : Nat) :
    CircuitBreaker :=
  { failure_threshold :=
      match failure_threshold with
      | none => CIRCUIT_FAILURE_THRESHOLD
      | some n => if n = 0 then CIRCUIT_FAILURE_THRESHOLD else n
    recovery_timeout :=
      match recovery_timeout with
      | none => CIRCUIT_RECOVERY_TIMEOUT
      | some t => if t = 0 then CIRCUIT_RECOVERY_TIMEOUT else t
    success_threshold := success_threshold }

/-- The `_circuits` dictionary. -/
def CBState : Type := List (String × CircuitStats)

/-- `_get_stats`: fetch or default (`CircuitStats()`). -/
def getStats (m : CBState) (k : String) : CircuitStats :=
  (lookupA m k).getD ⟨.closed, 0, 0, 0, 0⟩

/-- `is_allowed`; returns the decision and the circuits map it leaves
behind (`_get_stats` inserts the default record for an unseen key, and
the open→half-open transition mutates the entry under the lock). -/
def is_allowed (cb : CircuitBreaker) (m : CBState) (k : String)
    (now : Int) : Bool × CBState :=
  let stats := getStats m k
  match stats.state with
  | .closed => (true, setA m k stats)
  | .opened =>
    if now - stats.opened_at ≥ cb.recovery_timeout then
      (true, setA m k { stats with
        state := .halfOpen
        failure_count := 0
        success_count := 0 })
    else (false, setA m k stats)
  | .halfOpen => (true, setA m k stats)

/-- `record_success`. -/
def record_success (cb : CircuitBreaker) (m : CBState) (k : String) :
    CBState :=
  let stats := getStats m k
  match stats.state with
  | .halfOpen =>
    let stats := { stats with success_count := stats.success_count + 1 }
    if stats.success_count ≥ cb.success_threshold then
      setA m k { stats with
        state := .closed
        failure_count := 0
        success_count := 0 }
    else setA m k stats
  | .closed => setA m k { stats with failure_count := 0 }
  | .opened => setA m k stats

/-- `record_failure`. -/
def record_failure (cb : CircuitBreaker) (m : CBState) (k : String)
    (now : Int) : CBState :=
  let stats := getStats m k
  let stats := { stats with
    failure_count := stats.failure_count + 1
    last_failure_time := now }
  match stats.state with
  | .halfOpen => setA m k { stats with state := .opened, opened_at := now }
  | .closed =>
    if stats.failure_count ≥ cb.failure_threshold then
      setA m k { stats with state := .opened, opened_at := now }
    else setA m k stats
  | .opened => setA m k stats

/-! ## Sliding-window limiter (`src/hermes/services/rate_limiter.py`)

`time.time()` values are rationals; Python's `int()` truncates toward
zero. Slot maps and the per-key window table are association lists. -/

/-- Python `int()` on a nonnegative-or-negative rational: truncation
toward zero. -/
def pyInt (q : ℚ) : Int := if 0 ≤ q then ⌊q⌋ else -⌊-q⌋

structure SlidingWindowLimiter where
  max_requests : Nat
  window_seconds : Nat
  slot_count : Nat
  cleanup_interval : ℚ
  deriving DecidableEq, Repr

structure LimiterState where
  windows : List (String × List (Int × Nat))
  last_cleanup : ℚ
  deriving DecidableEq, Repr

/-- `window_seconds / slot_count` (true division). -/
def slotDuration (L : SlidingWindowLimiter) : ℚ :=
  (L.window_seconds : ℚ) / (L.slot_count : ℚ)

/-- `_current_slot`. -/
def currentSlot (L : SlidingWindowLimiter) (now : ℚ) : Int :=
  pyInt (now / slotDuration L)

/-- `_get_window_slots`: `range(current - slot_count + 1, current + 1)`. -/
def windowSlots (L : SlidingWindowLimiter) (now : ℚ) : List Int :=
  (List.range L.slot_count).map
    (fun (i : Nat) =>
      currentSlot L now - (L.slot_count : Int) + 1 + (i : Int))

/-- `window.get(slot, 0)`. -/
def getCount (w : List (Int × Nat)) (s : Int) : Nat :=
  (lookupA w s).getD 0

/-- The window stored for `key` (a missing key reads as empty). -/
def keyWindow (st : LimiterState) (k : String) : List (Int × Nat) :=
  (lookupA st.windows k).getD []

/-- `sum(window.get(slot, 0) for slot in window_slots)`. -/
def windowSum (L : SlidingWindowLimiter) (st : LimiterState) (k : String)
    (now : ℚ) : Nat :=
  (windowSlots L now).foldl
    (fun acc s => acc + getCount (keyWindow st k) s) 0

/-- Drop the expired slots (`slot < min_valid`) of one window. -/
def cleanupWindow (minValid : Int) (w : List (Int × Nat)) :
    List (Int × Nat) :=
  w.filter (fun p => decide (minValid ≤ p.1))

/-- `_cleanup_if_needed`: every `cleanup_interval` drop expired slots
and then any key left with no slots. -/
def cleanupState (L : SlidingWindowLimiter) (st : LimiterState)
    (now : ℚ) : LimiterState :=
  if now - st.last_cleanup < L.cleanup_interval then st
  else
    { windows := (st.windows.map (fun kv =>
        (kv.1, cleanupWindow (currentSlot L now - (L.slot_count : Int))
          kv.2))).filter (fun kv => kv.2 ≠ [])
      last_cleanup := now }

structure RateLimitResult where
  allowed : Bool
  limit : Nat
  remaining : Int
  reset_at : Int
  retry_after : Int
  deriving DecidableEq, Repr

/-- `SlidingWindowLimiter.check`: cleanup, sum the window, then deny
(no count change) or allow (increment the current slot). The defaultdict
access materialises the key's window either way. -/
def check (L : SlidingWindowLimiter) (st : LimiterState) (k : String)
    (now : ℚ) : RateLimitResult × LimiterState :=
  let st1 := cleanupState L st now
  let current_slot := currentSlot L now
  let window := keyWindow st1 k
  let current_count := windowSum L st1 k now
  let reset_at := pyInt (((current_slot + 1 : Int) : ℚ) * slotDuration L)
  if L.max_requests ≤ current_count then
    (⟨false, L.max_requests, 0, reset_at, max 1 (reset_at - pyInt now)⟩,
     ⟨setA st1.windows k window, st1.last_cleanup⟩)
  else
    (⟨true, L.max_requests, (L.max_requests : Int) - (current_count : Int)
        - 1, reset_at, 0⟩,
     ⟨setA st1.windows k
        (setA window current_slot (getCount window current_slot + 1)),
      st1.last_cleanup⟩)

/-! ## Dispatcher and chat orchestrator
(`src/hermes/services/dispatcher_service.py`,
`src/hermes/controllers/chat.py`)

The dispatcher's effectful sub-calls (`_is_available`, which consults
the circuit breaker, cooldowns and the self-healing probe;
`random.choice`; the scorer's random draw) are supplied as oracles in a
`DispatchEnv`, so one decision is a deterministic function. -/

structure Provider where
  id : String
  name : String
  status : String
  models : List String
  deriving DecidableEq, Repr

structure DispatchEnv where
  providers : List Provider
  avail : Provider → String → Bool
  choiceIdx : Provider → Nat
  score : Provider → String → ℚ

/-- The variant list `get_provider_for_model` resolves for a requested
model name. -/
def resolveVariants (providers : List Provider) (model_name : String) :
    List String :=
  let alias_maps := build_model_alias_maps (providers.map (fun p => p.models))
  let normalized :=
    orElse (normalize_model_name model_name).canonical model_name
  let canonical :=
    match lookupA alias_maps.variant_to_canonical normalized with
    | none => normalized
    | some c => orElse c normalized
  match lookupA alias_maps.canonical_to_variants canonical with
  | none => [model_name]
  | some vs => vs

/-- The candidate filter: status `active` or `syncing`, catalog meets
the variant list, id not excluded. -/
def dispatchCandidates (env : DispatchEnv) (model_name : String)
    (excluded_ids : List String) : List Provider :=
  let variant_list := resolveVariants env.providers model_name
  env.providers.filter (fun p =>
    (p.status = "active" || p.status = "syncing") &&
    variant_list.any (fun v => decide (v ∈ p.models)) &&
    decide (p.id ∉ excluded_ids))

/-- Per-candidate resolution and availability check; unavailable
candidates are skipped. `random.choice` is the oracle index modulo the
list length. -/
def scoredList (env : DispatchEnv) (model_name : String)
    (excluded_ids : List String) : List (Provider × String × ℚ) :=
  let variant_list := resolveVariants env.providers model_name
  (dispatchCandidates env model_name excluded_ids).filterMap (fun p =>
    let available_models := variant_list.filter (fun v => decide (v ∈ p.models))
    let resolved :=
      if available_models = [] then model_name
      else available_models.getD (env.choiceIdx p % available_models.length)
        model_name
    if env.avail p resolved then some (p, resolved, env.score p resolved)
    else none)

/-- `get_provider_for_model`: stable descending sort by score, take the
head — the first-seen maximal score. -/
def get_provider_for_model (env : DispatchEnv) (model_name : String)
    (excluded_ids : List String) : Option (Provider × String) :=
  match scoredList env model_name excluded_ids with
  | [] => none
  | s :: rest =>
    let picked := rest.foldl
      (fun best x => if best.2.2 < x.2.2 then x else best) s
    some (picked.1, picked.2.1)

/-- The outcome of one `ProxyService.forward_request` call: an HTTP
response (by status code) or a raised exception. -/
inductive ForwardResult where
  | resp (status : Nat)
  | exn (msg : String)
  deriving DecidableEq, Repr

/-- Oracle data for one loop attempt: the dispatcher decision inputs
and the proxy outcome. -/
structure AttemptEnv where
  dispatch : DispatchEnv
  forward : ForwardResult

/-- The values `chat_completions` can return: a 2xx pass-through, the
404 `model_not_found` envelope, a pass-through of the last non-2xx
upstream response, or the 502 `upstream_error` envelope. -/
inductive ChatResult where
  | success (status : Nat)
  | notFound
  | errorResponse (status : Nat)
  | badGateway
  deriving DecidableEq, Repr

/-- `200 <= status < 300`. -/
def is2xx (status : Nat) : Bool := 200 ≤ status && status < 300

/-- The retry loop of `chat_completions`. Arguments: remaining
attempts, current attempt number, `tried_provider_ids`, the last
captured non-2xx response status, the trace of forwarded attempts
(attempt number, provider, resolved model). -/
def chatLoop (env : Nat → AttemptEnv) (model : String) :
    Nat → Nat → List String → Option Nat →
    List (Nat × Provider × String) →
    ChatResult × List (Nat × Provider × String)
  | 0, _, _, lastErr, fwds =>
    (match lastErr with
     | some st => ChatResult.errorResponse st
     | none => ChatResult.badGateway, fwds)
  | (remaining + 1), attempt, tried, lastErr, fwds =>
    match get_provider_for_model (env attempt).dispatch model tried with
    | none =>
      if attempt = 1 then (ChatResult.notFound, fwds)
      else
        (match lastErr with
         | some st => ChatResult.errorResponse st
         | none => ChatResult.badGateway, fwds)
    | some (p, rm) =>
      let tried' := tried ++ [p.id]
      let fwds' := fwds ++ [(attempt, p, rm)]
      match (env attempt).forward with
      | .resp st =>
        if is2xx st then (ChatResult.success st, fwds')
        else chatLoop env model remaining (attempt + 1) tried' (some st)
          fwds'
      | .exn _ =>
        chatLoop env model remaining (attempt + 1) tried' lastErr fwds'

/-- `chat_completions` (instrumented with the forward trace). -/
def chat_completions (env : Nat → AttemptEnv) (model : String)
    (maxRetries : Nat) : ChatResult × List (Nat × Provider × String) :=
  chatLoop env model maxRetries 1 [] none []

/-- How the loop folds proxy outcomes into `last_error_response`. -/
def forwardStep (env : Nat → AttemptEnv) (acc : Option Nat)
    (t : Nat × Provider × String) : Option Nat :=
  match (env t.1).forward with
  | .resp st => if is2xx st then acc else some st
  | .exn _ => acc

/-- The last captured non-2xx response status over a forward trace. -/
def lastErrFold (env : Nat → AttemptEnv) (init : Option Nat)
    (l : List (Nat × Provider × String)) : Option Nat :=
  l.foldl (forwardStep env) init

/-- An attempt environment with no providers (used as a witness). -/
def emptyAttemptEnv : AttemptEnv :=
  ⟨⟨[], fun _ _ => false, fun _ => 0, fun _ _ => 0⟩, ForwardResult.exn ""⟩

/-! ## Basic facts about the association-list operations -/

theorem lookupA_setA {α β : Type} [DecidableEq α] (m : List (α × β))
    (k k' : α) (v : β) :
    lookupA (setA m k v) k' = if k = k' then some v else lookupA m k' := by
  induction m with
  | nil => simp [setA, lookupA]
  | cons hd tl ih =>
    obtain ⟨k0, v0⟩ := hd
    by_cases h0 : k0 = k
    · subst h0
      by_cases h1 : k0 = k'
      · subst h1; simp [setA, lookupA]
      · simp [setA, lookupA, h1]
    · by_cases h1 : k0 = k'
      · subst h1
        have h2 : ¬k = k0 := fun h => h0 h.symm
        simp [setA, lookupA, h0, h2]
      · simp [setA, lookupA, h0, h1, ih]

theorem isSome_lookupA_setA {α β : Type} [DecidableEq α]
    (m : List (α × β)) (k k' : α) (v : β)
    (h : (lookupA m k').isSome = true) :
    (lookupA (setA m k v) k').isSome = true := by
  rw [lookupA_setA]
  split <;> simp [h]

theorem lookupA_mem {α β : Type} [DecidableEq α] (m : List (α × β))
    (k : α) (v : β) (h : lookupA m k = some v) : (k, v) ∈ m := by
  induction m with
  | nil => simp [lookupA] at h
  | cons hd tl ih =>
    obtain ⟨k0, v0⟩ := hd
    by_cases h0 : k0 = k
    · subst h0
      simp [lookupA] at h
      simp [h]
    · simp [lookupA, h0] at h
      exact List.mem_cons_of_mem _ (ih h)

/-! ## Family-map membership lemmas (for claim C1) -/

theorem lookupA_addRaw (fm : List (String × FamilyEntry)) (raw k : String) :
    lookupA (addRaw fm raw) k =
      if fkOf raw = k then
        some ⟨newVariants ((lookupA fm (fkOf raw)).getD ⟨[], []⟩) raw,
              ((lookupA fm (fkOf raw)).getD ⟨[], []⟩).candidates
                ++ [candOf raw]⟩
      else lookupA fm k := by
  unfold addRaw
  exact lookupA_setA ..

theorem mem_newVariants_of_mem (e : FamilyEntry) (raw r : String)
    (h : r ∈ e.variants) : r ∈ newVariants e raw := by
  unfold newVariants
  split
  · exact h
  · exact List.mem_append_left _ h

theorem self_mem_newVariants (e : FamilyEntry) (raw : String) :
    raw ∈ newVariants e raw := by
  unfold newVariants
  split
  · assumption
  · simp

theorem addRaw_preserves (fm : List (String × FamilyEntry))
    (raw fk : String) (e : FamilyEntry) (r : String)
    (h : lookupA fm fk = some e) (hr : r ∈ e.variants) :
    ∃ e', lookupA (addRaw fm raw) fk = some e' ∧ r ∈ e'.variants := by
  rw [lookupA_addRaw]
  by_cases hk : fkOf raw = fk
  · subst hk
    rw [h, if_pos rfl]
    exact ⟨_, rfl, mem_newVariants_of_mem _ _ _ hr⟩
  · rw [if_neg hk]
    exact ⟨e, h, hr⟩

theorem addRaw_inserts (fm : List (String × FamilyEntry)) (raw : String) :
    ∃ e, lookupA (addRaw fm raw) (fkOf raw) = some e ∧ raw ∈ e.variants := by
  rw [lookupA_addRaw, if_pos rfl]
  exact ⟨_, rfl, self_mem_newVariants _ _⟩

theorem foldl_addRaw_preserves (raws : List String)
    (fm : List (String × FamilyEntry)) (fk : String) (e : FamilyEntry)
    (r : String) (h : lookupA fm fk = some e) (hr : r ∈ e.variants) :
    ∃ e', lookupA (raws.foldl addRaw fm) fk = some e' ∧ r ∈ e'.variants := by
  induction raws generalizing fm e with
  | nil => exact ⟨e, h, hr⟩
  | cons x xs ih =>
    obtain ⟨e', h', hr'⟩ := addRaw_preserves fm x fk e r h hr
    exact ih _ _ h' hr'

theorem foldl_addRaw_mem (raws : List String)
    (fm : List (String × FamilyEntry)) (r : String) (hr : r ∈ raws) :
    ∃ fk e, lookupA (raws.foldl addRaw fm) fk = some e ∧ r ∈ e.variants := by
  induction raws generalizing fm with
  | nil => cases hr
  | cons x xs ih =>
    simp only [List.foldl_cons]
    rcases List.mem_cons.mp hr with h | h
    · subst h
      obtain ⟨e, he, hm⟩ := addRaw_inserts fm r
      obtain ⟨e', h', hr'⟩ := foldl_addRaw_preserves xs _ _ e r he hm
      exact ⟨fkOf r, e', h', hr'⟩
    · exact ih _ h

/-! ## Inverse-map lemmas (for claim C1) -/

theorem isSome_v2cStep (pc : String) (m : List (String × String))
    (v k : String) (h : (lookupA m k).isSome = true) :
    (lookupA (v2cStep pc m v) k).isSome = true := by
  unfold v2cStep
  exact isSome_lookupA_setA _ _ _ _ (isSome_lookupA_setA _ _ _ _ h)

theorem isSome_foldl_v2cStep (pc : String) (vs : List String)
    (m : List (String × String)) (k : String)
    (h : (lookupA m k).isSome = true) :
    (lookupA (vs.foldl (v2cStep pc) m) k).isSome = true := by
  induction vs generalizing m with
  | nil => exact h
  | cons x xs ih => exact ih _ (isSome_v2cStep _ _ _ _ h)

theorem foldl_v2cStep_mem (pc : String) (vs : List String)
    (m : List (String × String)) (v : String) (hv : v ∈ vs) :
    (lookupA (vs.foldl (v2cStep pc) m) v).isSome = true := by
  induction vs generalizing m with
  | nil => cases hv
  | cons x xs ih =>
    simp only [List.foldl_cons]
    rcases List.mem_cons.mp hv with h | h
    · subst h
      refine isSome_foldl_v2cStep pc xs (v2cStep pc m v) v ?_
      unfold v2cStep
      rw [lookupA_setA, if_pos rfl]
      rfl
    · exact ih _ h

theorem isSome_familyStep_v2c (maps : ModelAliasMaps) (e : FamilyEntry)
    (k : String)
    (h : (lookupA maps.variant_to_canonical k).isSome = true) :
    (lookupA (familyStep maps e).variant_to_canonical k).isSome = true := by
  unfold familyStep
  exact isSome_lookupA_setA _ _ _ _ (isSome_lookupA_setA _ _ _ _
    (isSome_foldl_v2cStep _ _ _ _ h))

theorem familyStep_v2c_mem (maps : ModelAliasMaps) (e : FamilyEntry)
    (r : String) (hr : r ∈ e.variants) :
    (lookupA (familyStep maps e).variant_to_canonical r).isSome = true := by
  unfold familyStep
  exact isSome_lookupA_setA _ _ _ _ (isSome_lookupA_setA _ _ _ _
    (foldl_v2cStep_mem _ _ _ _ hr))

theorem foldl_familyStep_isSome (fml : List (String × FamilyEntry))
    (maps : ModelAliasMaps) (k : String)
    (h : (lookupA maps.variant_to_canonical k).isSome = true) :
    (lookupA (fml.foldl (fun maps kv => familyStep maps kv.2)
      maps).variant_to_canonical k).isSome = true := by
  induction fml generalizing maps with
  | nil => exact h
  | cons x xs ih => exact ih _ (isSome_familyStep_v2c _ _ _ h)

theorem foldl_familyStep_mem (fml : List (String × FamilyEntry))
    (maps : ModelAliasMaps) (fk : String) (e : FamilyEntry) (r : String)
    (h : (fk, e) ∈ fml) (hr : r ∈ e.variants) :
    (lookupA (fml.foldl (fun maps kv => familyStep maps kv.2)
      maps).variant_to_canonical r).isSome = true := by
  induction fml generalizing maps with
  | nil => cases h
  | cons x xs ih =>
    simp only [List.foldl_cons]
    rcases List.mem_cons.mp h with h0 | h0
    · subst h0
      exact foldl_familyStep_isSome _ _ _ (familyStep_v2c_mem _ _ _ hr)
    · exact ih _ h0

theorem setA_values {α β : Type} [DecidableEq α] (m : List (α × β))
    (k0 : α) (v0 : β) (k : α) (c : β)
    (h : lookupA (setA m k0 v0) k = some c) :
    c = v0 ∨ lookupA m k = some c := by
  rw [lookupA_setA] at h
  by_cases hk : k0 = k
  · rw [if_pos hk] at h
    exact Or.inl (Option.some_injective _ h).symm
  · rw [if_neg hk] at h
    exact Or.inr h

theorem foldl_v2cStep_values (pc : String) (vs : List String)
    (m : List (String × String)) (k c : String)
    (h : lookupA (vs.foldl (v2cStep pc) m) k = some c) :
    c = pc ∨ lookupA m k = some c := by
  induction vs generalizing m with
  | nil => exact Or.inr h
  | cons x xs ih =>
    rcases ih _ h with h0 | h0
    · exact Or.inl h0
    · unfold v2cStep at h0
      rcases setA_values _ _ _ _ _ h0 with h1 | h1
      · exact Or.inl h1
      · rcases setA_values _ _ _ _ _ h1 with h2 | h2
        · exact Or.inl h2
        · exact Or.inr h2

theorem familyStep_linked (maps : ModelAliasMaps) (e : FamilyEntry)
    (h : MapsLinked maps) : MapsLinked (familyStep maps e) := by
  intro k c hkc
  simp only [familyStep] at hkc ⊢
  rcases setA_values _ _ _ _ _ hkc with h0 | h0
  · subst h0
    rw [lookupA_setA, if_pos rfl]
    rfl
  · rcases setA_values _ _ _ _ _ h0 with h1 | h1
    · subst h1
      rw [lookupA_setA, if_pos rfl]
      rfl
    · rcases foldl_v2cStep_values _ _ _ _ _ h1 with h2 | h2
      · subst h2
        rw [lookupA_setA, if_pos rfl]
        rfl
      · exact isSome_lookupA_setA _ _ _ _ (h _ _ h2)

theorem foldl_familyStep_linked (fml : List (String × FamilyEntry))
    (maps : ModelAliasMaps) (h : MapsLinked maps) :
    MapsLinked (fml.foldl (fun maps kv => familyStep maps kv.2) maps) := by
  induction fml generalizing maps with
  | nil => exact h
  | cons x xs ih => exact ih _ (familyStep_linked _ _ h)

/-! ## The Python list order on version tuples (for claim C2) -/

theorem pyLt_irrefl (a : List Nat) : pyLt a a = false := by
  induction a with
  | nil => rfl
  | cons x xs ih => simp [pyLt, ih]

theorem pyLt_trans (a b c : List Nat) (h1 : pyLt a b = true)
    (h2 : pyLt b c = true) : pyLt a c = true := by
  induction a generalizing b c with
  | nil =>
    cases b with
    | nil => simp [pyLt] at h1
    | cons y ys =>
      cases c with
      | nil => simp [pyLt] at h2
      | cons z zs => rfl
  | cons x xs ih =>
    cases b with
    | nil => simp [pyLt] at h1
    | cons y ys =>
      cases c with
      | nil => simp [pyLt] at h2
      | cons z zs =>
        simp only [pyLt, Bool.or_eq_true, Bool.and_eq_true, decide_eq_true_eq]
          at h1 h2 ⊢
        rcases h1 with h1 | ⟨h1e, h1t⟩
        · rcases h2 with h2 | ⟨h2e, h2t⟩
          · exact Or.inl (Nat.lt_trans h1 h2)
          · exact Or.inl (h2e ▸ h1)
        · rcases h2 with h2 | ⟨h2e, h2t⟩
          · exact Or.inl (h1e ▸ h2)
          · exact Or.inr ⟨h1e.trans h2e, ih _ _ h1t h2t⟩

theorem pyLt_both_false (a b : List Nat) (h : pyLt a b = false)
    (h' : pyLt b a = false) : a = b := by
  induction a generalizing b with
  | nil =>
    cases b with
    | nil => rfl
    | cons y ys => simp [pyLt] at h
  | cons x xs ih =>
    cases b with
    | nil => simp [pyLt] at h'
    | cons y ys =>
      simp only [pyLt, Bool.or_eq_false_iff, Bool.and_eq_false_iff,
        decide_eq_false_iff_not] at h h'
      have hxy : x = y := by omega
      subst hxy
      rcases h.2 with h2 | h2
      · simp at h2
      · rcases h'.2 with h3 | h3
        · simp at h3
        · rw [ih _ h2 h3]

theorem pyLt_neg_trans (a b c : List Nat) (hab : pyLt a b = false)
    (hbc : pyLt b c = false) : pyLt a c = false := by
  cases hac : pyLt a c with
  | false => rfl
  | true =>
    cases hba : pyLt b a with
    | false =>
      have : a = b := pyLt_both_false a b hab hba
      rw [this] at hac
      rw [hac] at hbc
      exact hbc
    | true =>
      have : pyLt b c = true := pyLt_trans b a c hba hac
      rw [this] at hbc
      exact hbc

theorem combineCand_assoc (a b d : Candidate) :
    combineCand (combineCand a b) d = combineCand a (combineCand b d) := by
  unfold combineCand
  cases h1 : pyLt a.version b.version with
  | true =>
    cases h2 : pyLt b.version d.version with
    | true =>
      have h3 : pyLt a.version d.version = true :=
        pyLt_trans _ _ _ h1 h2
      simp [h1, h2, h3]
    | false => simp [h1, h2]
  | false =>
    cases h2 : pyLt b.version d.version with
    | true => simp [h1, h2]
    | false =>
      have h3 : pyLt a.version d.version = false :=
        pyLt_neg_trans _ _ _ h1 h2
      simp [h1, h2, h3]

theorem firstMaxPy_combine (c x : Candidate) (xs : List Candidate) :
    firstMaxPy (combineCand c x) xs = combineCand c (firstMaxPy x xs) := by
  cases xs with
  | nil => rfl
  | cons y ys =>
    simp only [firstMaxPy]
    exact combineCand_assoc c x (firstMaxPy y ys)

theorem combineCand_cases (a b : Candidate) :
    combineCand a b = a ∨ combineCand a b = b := by
  unfold combineCand
  split
  · exact Or.inr rfl
  · exact Or.inl rfl

theorem firstMaxPy_mem (c : Candidate) (cs : List Candidate) :
    firstMaxPy c cs ∈ c :: cs := by
  induction cs generalizing c with
  | nil => simp [firstMaxPy]
  | cons x xs ih =>
    rcases combineCand_cases c (firstMaxPy x xs) with h | h
    · rw [firstMaxPy, h]
      simp
    · rw [firstMaxPy, h]
      exact List.mem_cons_of_mem _ (ih x)

theorem combineCand_not_lt_left (a b : Candidate) :
    pyLt (combineCand a b).version a.version = false := by
  cases h : pyLt a.version b.version with
  | true =>
    have h' : pyLt b.version a.version = false := by
      cases h' : pyLt b.version a.version with
      | false => rfl
      | true =>
        have ht := pyLt_trans _ _ _ h h'
        rw [pyLt_irrefl] at ht
        exact absurd ht (by decide)
    simp [combineCand, h, h']
  | false => simp [combineCand, h, pyLt_irrefl]

theorem firstMaxPy_not_lt (c : Candidate) (cs : List Candidate) :
    ∀ x ∈ c :: cs, pyLt (firstMaxPy c cs).version x.version = false := by
  induction cs generalizing c with
  | nil =>
    intro x hx
    rw [List.mem_singleton] at hx
    subst hx
    exact pyLt_irrefl _
  | cons y ys ih =>
    intro x hx
    rw [firstMaxPy]
    rcases List.mem_cons.mp hx with hx | hx
    · subst hx
      exact combineCand_not_lt_left _ _
    · have hm : pyLt (firstMaxPy y ys).version x.version = false := ih y x hx
      rcases combineCand_cases c (firstMaxPy y ys) with h | h
      · rw [h]
        have hc : pyLt c.version (firstMaxPy y ys).version = false := by
          cases h0 : pyLt c.version (firstMaxPy y ys).version with
          | false => rfl
          | true =>
            unfold combineCand at h
            rw [if_pos h0] at h
            rw [h, pyLt_irrefl] at h0
            exact absurd h0 (by decide)
        exact pyLt_neg_trans _ _ _ hc hm
      · rw [h]
        exact hm

/-! ## Claims C1, C2, C3 -/

/-- C1, counterexample: with one provider advertising `["4", "4-latest"]`
the raw identifier `"4"` maps to canonical `"4"`, but
`canonical_to_variants["4"]` was overwritten by the `"4-latest"` family
and no longer contains `"4"`: the round-trip fails. -/
theorem C1_counterexample :
    lookupA (build_model_alias_maps [["4", "4-latest"]]).variant_to_canonical
      "4" = some "4" ∧
    lookupA (build_model_alias_maps [["4", "4-latest"]]).canonical_to_variants
      "4" = some ["4-latest"] ∧
    ("4" : String) ∉ (["4-latest"] : List String) := by
  refine ⟨by decide, by decide, by decide⟩

/-- C1, amended: for every raw identifier `r` appearing in some
provider's models list, `variant_to_canonical[r]` exists, and the
canonical it maps to has an entry in `canonical_to_variants`; the
stronger claim that the entry contains `r` fails when two families
share a preferred canonical (see the counterexample). -/
theorem C1_alias_roundtrip_amended (P : List (List String)) (r : String)
    (h : ∃ ms ∈ P, r ∈ ms) :
    (lookupA (build_model_alias_maps P).variant_to_canonical r).isSome
      = true ∧
    (lookupA (build_model_alias_maps P).canonical_to_variants
      ((lookupA (build_model_alias_maps P).variant_to_canonical r).getD "")
      ).isSome = true := by
  obtain ⟨ms, hms, hr⟩ := h
  have hmem : r ∈ P.flatMap id := List.mem_flatMap.mpr ⟨ms, hms, hr⟩
  obtain ⟨fk, e, he, hre⟩ := foldl_addRaw_mem (P.flatMap id) [] r hmem
  have hfam : (fk, e) ∈ familyMap P := lookupA_mem _ _ _ he
  have h1 : (lookupA (build_model_alias_maps P).variant_to_canonical
      r).isSome = true := by
    unfold build_model_alias_maps
    exact foldl_familyStep_mem _ _ fk e r hfam hre
  have h2 : MapsLinked (build_model_alias_maps P) := by
    unfold build_model_alias_maps
    refine foldl_familyStep_linked _ _ ?_
    intro k c hk
    simp [lookupA] at hk
  obtain ⟨c, hc⟩ := Option.isSome_iff_exists.mp h1
  refine ⟨h1, ?_⟩
  rw [hc, Option.getD_some]
  exact h2 _ _ hc

/-- Witness for C1 at a concrete provider set. -/
theorem C1_alias_roundtrip_amended_witness :
    (lookupA (build_model_alias_maps [["gpt-4o"]]).variant_to_canonical
      "gpt-4o").isSome = true ∧
    (lookupA (build_model_alias_maps [["gpt-4o"]]).canonical_to_variants
      ((lookupA (build_model_alias_maps [["gpt-4o"]]).variant_to_canonical
        "gpt-4o").getD "")).isSome = true :=
  C1_alias_roundtrip_amended [["gpt-4o"]] "gpt-4o"
    ⟨["gpt-4o"], by decide, by decide⟩

/-- C2, counterexample: the family `foo` of `["foo-1", "foo-1.0"]` has
candidates with versions `[1]` and `[1, 0]`. Padded comparison (by
`compare_version_parts`) calls them equal, so the claim's first-seen
tie-break picks `foo-1`; the code sorts with Python's list order, where
`[1] < [1, 0]`, and records `foo-1.0` as the preferred canonical. -/
theorem C2_counterexample :
    claimPreferredPadded
      ((((lookupA (familyMap [["foo-1", "foo-1.0"]]) "foo").getD
        ⟨[], []⟩).candidates).filter (fun c => c.version ≠ []))
      = some ⟨"foo-1", [1]⟩ ∧
    (preferredOf ((lookupA (familyMap [["foo-1", "foo-1.0"]]) "foo").getD
      ⟨[], []⟩)).canonical = "foo-1.0" ∧
    lookupA
      (build_model_alias_maps [["foo-1", "foo-1.0"]]).canonical_to_variants
      "foo-1" = none ∧
    (("foo-1.0" : String) ≠ "foo-1") := by
  refine ⟨by decide, by decide, by decide, by decide⟩

/-- C2, amended: within each family the code's preferred candidate is
the first-seen candidate whose version tuple is maximal under PYTHON
list comparison (a strict prefix such as `[1]` compares below `[1, 0]`;
identical tuples fall to the first seen), not under the padded
comparison of `compare_version_parts`: `pickPreferred` equals the
reference first-maximum `firstMaxPy`, is one of the candidates, and no
candidate's version exceeds its version. -/
theorem C2_preferred_amended (c : Candidate) (cs : List Candidate) :
    pickPreferred c cs = firstMaxPy c cs ∧
    pickPreferred c cs ∈ c :: cs ∧
    ∀ x ∈ c :: cs, pyLt (pickPreferred c cs).version x.version = false := by
  have hfold : pickPreferred c cs = firstMaxPy c cs := by
    unfold pickPreferred
    induction cs generalizing c with
    | nil => rfl
    | cons x xs ih =>
      simp only [List.foldl_cons, firstMaxPy]
      rw [ih (combineCand c x), firstMaxPy_combine]
  refine ⟨hfold, ?_, ?_⟩
  · rw [hfold]
    exact firstMaxPy_mem c cs
  · rw [hfold]
    exact firstMaxPy_not_lt c cs

/-- Witness for C2 at a concrete candidate list. -/
theorem C2_preferred_amended_witness :
    pickPreferred ⟨"foo-1", [1]⟩ [⟨"foo-1.0", [1, 0]⟩]
      = firstMaxPy ⟨"foo-1", [1]⟩ [⟨"foo-1.0", [1, 0]⟩] ∧
    pyLt (pickPreferred ⟨"foo-1", [1]⟩ [⟨"foo-1.0", [1, 0]⟩]).version [1, 0]
      = false :=
  ⟨(C2_preferred_amended ⟨"foo-1", [1]⟩ [⟨"foo-1.0", [1, 0]⟩]).1,
   (C2_preferred_amended ⟨"foo-1", [1]⟩ [⟨"foo-1.0", [1, 0]⟩]).2.2
     ⟨"foo-1.0", [1, 0]⟩ (by simp)⟩

/-- C3, counterexample: for input `vendor/latest` the canonical-token
join is empty and the code falls back to the vendor-stripped segment
`latest`, not to the cleaned form `vendor/latest` the claim names. -/
theorem C3_counterexample :
    (normalize_model_name "vendor/latest").canonical = "latest" ∧
    claimCanonicalFallbackCleaned "vendor/latest" = "vendor/latest" ∧
    ("latest" : String) ≠ "vendor/latest" := by
  refine ⟨by decide, by decide, by decide⟩

/-- C3, amended: `canonical` is the `-`-join of the surviving canonical
tokens, and `family_key` the join of the surviving family tokens; an
empty join falls back to the VENDOR-STRIPPED form (the final `/`-segment
of the cleaned input), not to the cleaned form itself. -/
theorem C3_join_fallback_amended (raw : String) :
    (normalize_model_name raw).canonical =
      (⟨if canonicalJoinOf raw = [] then withoutVendor (cleanedOf raw.data)
        else canonicalJoinOf raw⟩ : String) ∧
    (normalize_model_name raw).family_key =
      (⟨if familyJoinOf raw = [] then withoutVendor (cleanedOf raw.data)
        else familyJoinOf raw⟩ : String) :=
  ⟨rfl, rfl⟩

/-! ## Router-scorer lemmas (claims C4, C5, C6) -/

theorem decayFactor_nonneg (age_ms : Int) : 0 ≤ decayFactor age_ms :=
  Real.rpow_nonneg (by norm_num) _

theorem applyDecay_alpha_ge_one (stat : ProviderStats) (now : Int)
    (h : 1 ≤ stat.alpha) : 1 ≤ (applyDecay stat now).alpha := by
  unfold applyDecay
  split
  · exact h
  · split
    · exact h
    · show (1 : ℝ) ≤
        PRIOR_ALPHA + (stat.alpha - PRIOR_ALPHA)
          * decayFactor (now - stat.last_updated)
      have hd := decayFactor_nonneg (now - stat.last_updated)
      unfold PRIOR_ALPHA
      nlinarith

theorem applyDecay_beta_ge_one (stat : ProviderStats) (now : Int)
    (h : 1 ≤ stat.beta) : 1 ≤ (applyDecay stat now).beta := by
  unfold applyDecay
  split
  · exact h
  · split
    · exact h
    · show (1 : ℝ) ≤
        PRIOR_BETA + (stat.beta - PRIOR_BETA)
          * decayFactor (now - stat.last_updated)
      have hd := decayFactor_nonneg (now - stat.last_updated)
      unfold PRIOR_BETA
      nlinarith

theorem applyDecay_latency_ewma (stat : ProviderStats) (now : Int) :
    (applyDecay stat now).latency_ewma = stat.latency_ewma := by
  unfold applyDecay
  split
  · rfl
  · split
    · rfl
    · rfl

theorem observeOutcome_ge_one (stat : ProviderStats) (success : Bool)
    (ha : 1 ≤ stat.alpha) (hb : 1 ≤ stat.beta) :
    1 ≤ (observeOutcome stat success).alpha ∧
    1 ≤ (observeOutcome stat success).beta := by
  cases success with
  | true =>
    refine ⟨?_, hb⟩
    show (1 : ℝ) ≤ stat.alpha + 1
    linarith
  | false =>
    refine ⟨ha, ?_⟩
    show (1 : ℝ) ≤ stat.beta + 1
    linarith

theorem observeLatency_alpha (stat : ProviderStats) (l : Option ℝ) :
    (observeLatency stat l).alpha = stat.alpha ∧
    (observeLatency stat l).beta = stat.beta := by
  cases l with
  | none => exact ⟨rfl, rfl⟩
  | some lat => exact ⟨rfl, rfl⟩

theorem stampStat_alpha (stat : ProviderStats) (now : Int) :
    (stampStat stat now).alpha = stat.alpha ∧
    (stampStat stat now).beta = stat.beta :=
  ⟨rfl, rfl⟩

theorem scorerUpdate_inv (st : RState) (p m : String) (success : Bool)
    (l : Option ℝ) (now : Int) (h : StatsInv st) :
    StatsInv (scorerUpdate st p m success l now) := by
  intro k s' hk
  simp only [scorerUpdate] at hk
  rcases setA_values _ _ _ _ _ hk with heq | hold
  · subst heq
    have hbase : 1 ≤ ((lookupA st (rkey p m)).getD
        ⟨PRIOR_ALPHA, PRIOR_BETA, 800, now, 0, 0, 0⟩).alpha ∧
        1 ≤ ((lookupA st (rkey p m)).getD
        ⟨PRIOR_ALPHA, PRIOR_BETA, 800, now, 0, 0, 0⟩).beta := by
      cases hlk : lookupA st (rkey p m) with
      | none =>
        constructor
        · show (1 : ℝ) ≤ PRIOR_ALPHA
          unfold PRIOR_ALPHA
          norm_num
        · show (1 : ℝ) ≤ PRIOR_BETA
          unfold PRIOR_BETA
          norm_num
      | some s0 =>
        exact h _ _ hlk
    have hd : 1 ≤ (applyDecay ((lookupA st (rkey p m)).getD
        ⟨PRIOR_ALPHA, PRIOR_BETA, 800, now, 0, 0, 0⟩) now).alpha ∧
        1 ≤ (applyDecay ((lookupA st (rkey p m)).getD
        ⟨PRIOR_ALPHA, PRIOR_BETA, 800, now, 0, 0, 0⟩) now).beta :=
      ⟨applyDecay_alpha_ge_one _ _ hbase.1, applyDecay_beta_ge_one _ _ hbase.2⟩
    have ho := observeOutcome_ge_one _ success hd.1 hd.2
    have hl := observeLatency_alpha
      (observeOutcome (applyDecay ((lookupA st (rkey p m)).getD
        ⟨PRIOR_ALPHA, PRIOR_BETA, 800, now, 0, 0, 0⟩) now) success) l
    have hs := stampStat_alpha
      (observeLatency (observeOutcome (applyDecay ((lookupA st (rkey p m)).getD
        ⟨PRIOR_ALPHA, PRIOR_BETA, 800, now, 0, 0, 0⟩) now) success) l) now
    rw [hs.1, hs.2, hl.1, hl.2]
    exact ho
  · exact h _ _ hold

theorem score_for_state_inv (st : RState) (p m : String) (d u : ℝ)
    (now : Int) (h : StatsInv st) : StatsInv (score_for st p m d u now).2 := by
  intro k s' hk
  simp only [score_for] at hk
  cases hlk : lookupA st (rkey p m) with
  | none =>
    rw [hlk] at hk
    exact h _ _ hk
  | some stat =>
    rw [hlk] at hk
    simp only at hk
    rcases setA_values _ _ _ _ _ hk with heq | hold
    · subst heq
      have hb := h _ _ hlk
      exact ⟨applyDecay_alpha_ge_one _ _ hb.1, applyDecay_beta_ge_one _ _ hb.2⟩
    · exact h _ _ hold

theorem foldl_runOp_inv (ops : List ROp) (st : RState) (h : StatsInv st) :
    StatsInv (ops.foldl runOp st) := by
  induction ops generalizing st with
  | nil => exact h
  | cons op rest ih =>
    simp only [List.foldl_cons]
    refine ih _ ?_
    cases op with
    | upd p m s l n => exact scorerUpdate_inv _ _ _ _ _ _ h
    | score p m d u n => exact score_for_state_inv _ _ _ _ _ _ h

/-- C6: after any sequence of `update` and `score_for` calls, every
stored arm satisfies `alpha ≥ 1` and `beta ≥ 1`: decay shrinks toward
the prior 1 and never crosses it, and increments only add. -/
theorem C6_alpha_beta_ge_one (ops : List ROp) (k : String)
    (s : ProviderStats) (h : lookupA (runOps ops) k = some s) :
    1 ≤ s.alpha ∧ 1 ≤ s.beta := by
  refine foldl_runOp_inv ops [] ?_ k s h
  intro k0 s0 h0
  simp [lookupA] at h0

theorem isSome_scorerUpdate_self (st : RState) (p m : String)
    (success : Bool) (l : Option ℝ) (now : Int) :
    (lookupA (scorerUpdate st p m success l now) (rkey p m)).isSome
      = true := by
  unfold scorerUpdate
  rw [lookupA_setA, if_pos rfl]
  rfl

/-- Witness for C6: one successful update on a fresh arm. -/
theorem C6_alpha_beta_ge_one_witness :
    (lookupA (runOps [ROp.upd "p" "m" true none 5]) "p:m").elim False
      (fun s => 1 ≤ s.alpha ∧ 1 ≤ s.beta) := by
  have hs : (lookupA (runOps [ROp.upd "p" "m" true none 5]) "p:m").isSome
      = true := by
    have h1 : runOps [ROp.upd "p" "m" true none 5]
        = scorerUpdate [] "p" "m" true none 5 := rfl
    have h2 : rkey "p" "m" = "p:m" := rfl
    rw [h1, ← h2]
    exact isSome_scorerUpdate_self [] "p" "m" true none 5
  obtain ⟨s, hsome⟩ := Option.isSome_iff_exists.mp hs
  rw [hsome]
  exact C6_alpha_beta_ge_one [ROp.upd "p" "m" true none 5] "p:m" s hsome

theorem decayFactor_half : decayFactor 43200000 = 1 / 2 := by
  unfold decayFactor DECAY_HALF_LIFE_MS
  have h1 : (-((43200000 : Int) : ℝ) / ((12 * 60 * 60 * 1000 : Int) : ℝ))
      = (-1 : ℝ) := by
    norm_num
  rw [h1, Real.rpow_neg_one]
  norm_num

/-- C4: `score_for` applies decay to the shared stored record without
stamping `last_updated`, so repeated scoring compounds the decay. After
two successful updates at t = 1 ms the stored `alpha` is 3; the claim
says that after any number of scores at t = 1 ms + half-life the stored
parameters equal one decay step (`alpha = 2`), but two score calls leave
`alpha = 3/2` (with `last_updated` still 1). -/
theorem C4_score_double_decay :
    ((lookupA (runOps [ROp.upd "p" "m" true none 1,
        ROp.upd "p" "m" true none 1]) "p:m").map ProviderStats.alpha
      = some 3) ∧
    ((lookupA (runOps [ROp.upd "p" "m" true none 1,
        ROp.upd "p" "m" true none 1, ROp.score "p" "m" 0 0 43200001,
        ROp.score "p" "m" 0 0 43200001]) "p:m").map ProviderStats.alpha
      = some (3 / 2)) ∧
    ((lookupA (runOps [ROp.upd "p" "m" true none 1,
        ROp.upd "p" "m" true none 1, ROp.score "p" "m" 0 0 43200001,
        ROp.score "p" "m" 0 0 43200001]) "p:m").map
        ProviderStats.last_updated = some 1) ∧
    ((applyDecay ⟨3, 1, 800, 1, 2, 2, 0⟩ 43200001).alpha = 2) ∧
    ((3 : ℝ) / 2 ≠ 2) := by
  have hupd : runOps [ROp.upd "p" "m" true none 1, ROp.upd "p" "m" true none 1]
      = [("p:m", ⟨PRIOR_ALPHA + 1 + 1, PRIOR_BETA, 800, 1, 0 + 1 + 1,
          0 + 1 + 1, 0⟩)] := rfl
  have hd : ∀ a b ew : ℝ, ∀ sm ts tf : Nat,
      applyDecay ⟨a, b, ew, 1, sm, ts, tf⟩ 43200001
        = ⟨1 + (a - 1) * (1 / 2), 1 + (b - 1) * (1 / 2), ew, 1, sm, ts,
            tf⟩ := by
    intro a b ew sm ts tf
    have h43 : (43200001 - 1 : Int) = 43200000 := by norm_num
    norm_num [applyDecay, PRIOR_ALPHA, PRIOR_BETA, h43, decayFactor_half]
  have h4 : runOps [ROp.upd "p" "m" true none 1, ROp.upd "p" "m" true none 1,
      ROp.score "p" "m" 0 0 43200001, ROp.score "p" "m" 0 0 43200001]
      = [("p:m", applyDecay (applyDecay ⟨PRIOR_ALPHA + 1 + 1, PRIOR_BETA,
          800, 1, 0 + 1 + 1, 0 + 1 + 1, 0⟩ 43200001) 43200001)] := rfl
  refine ⟨?_, ?_, ?_, ?_, by norm_num⟩
  · rw [hupd]
    norm_num [lookupA, PRIOR_ALPHA]
  · rw [h4, hd, hd]
    norm_num [lookupA, PRIOR_ALPHA, PRIOR_BETA]
  · rw [h4, hd, hd]
    norm_num [lookupA]
  · rw [hd]
    norm_num

/-! ## Claim C5 -/

/-- C5, counterexample: for an arm the scorer has never updated,
`score_for` returns the bare Beta(1, 1) draw with no latency factor and
no jitter; the claim's formula (with the prior EWMA of 800 ms) is
strictly below the draw at `draw = 1`, `jitter = 0`. -/
theorem C5_counterexample :
    (score_for [] "p" "m" 1 0 0).1 = 1 ∧
    claimScoreFormula 1 0 800 < 1 := by
  constructor
  · show betavariate 1 PRIOR_ALPHA PRIOR_BETA = 1
    unfold betavariate
    rw [if_pos]
    constructor
    · show (0 : ℝ) < PRIOR_ALPHA
      unfold PRIOR_ALPHA
      norm_num
    · show (0 : ℝ) < PRIOR_BETA
      unfold PRIOR_BETA
      norm_num
  · unfold claimScoreFormula latencyMultiplier
    have he : 0 < Real.exp (((800 : ℝ) - 3000) / 1000) := Real.exp_pos _
    have h1 : (0 : ℝ) < 1 + Real.exp (((800 : ℝ) - 3000) / 1000) := by
      linarith
    have h2 : 1 / (1 + Real.exp (((800 : ℝ) - 3000) / 1000)) < 1 := by
      rw [div_lt_one h1]
      linarith
    nlinarith

/-- C5, amended: for an arm PRESENT in the stats map with the invariant
parameters (`alpha ≥ 1`, `beta ≥ 1`), `score_for` returns
`p·0.8 + p·0.2·latency_mult(ewma) + u·0.005` where `p` is the Beta draw
for the decayed parameters and `ewma` the stored EWMA (decay leaves it
unchanged); for a never-seen arm the score is the bare Beta(1, 1) draw
with no latency factor and no jitter (see the counterexample). -/
theorem C5_score_formula_amended (st : RState) (p m : String)
    (s : ProviderStats) (draw u : ℝ) (now : Int)
    (hs : lookupA st (rkey p m) = some s)
    (ha : 1 ≤ s.alpha) (hb : 1 ≤ s.beta) :
    (score_for st p m draw u now).1 =
      draw * 0.8 + draw * 0.2 * latencyMultiplier s.latency_ewma
        + u * 0.005 := by
  have hA : (0 : ℝ) < (applyDecay s now).alpha :=
    lt_of_lt_of_le zero_lt_one (applyDecay_alpha_ge_one s now ha)
  have hB : (0 : ℝ) < (applyDecay s now).beta :=
    lt_of_lt_of_le zero_lt_one (applyDecay_beta_ge_one s now hb)
  simp only [score_for]
  rw [hs]
  show betavariate draw (applyDecay s now).alpha (applyDecay s now).beta * 0.8
      + betavariate draw (applyDecay s now).alpha (applyDecay s now).beta
        * 0.2 * latencyMultiplier (applyDecay s now).latency_ewma
      + u * 0.005
    = draw * 0.8 + draw * 0.2 * latencyMultiplier s.latency_ewma + u * 0.005
  unfold betavariate
  rw [if_pos ⟨hA, hB⟩, applyDecay_latency_ewma]

/-- Witness for C5 at a concrete stored arm. -/
theorem C5_score_formula_amended_witness :
    (score_for [("p:m", ⟨1, 1, 800, 0, 0, 0, 0⟩)] "p" "m" 0 0 0).1 =
      0 * 0.8 + 0 * 0.2 * latencyMultiplier 800 + 0 * 0.005 :=
  C5_score_formula_amended [("p:m", ⟨1, 1, 800, 0, 0, 0, 0⟩)] "p" "m"
    ⟨1, 1, 800, 0, 0, 0, 0⟩ 0 0 0 rfl (by norm_num) (by norm_num)

/-! ## Circuit-breaker lemmas (claims C7, C10) -/

theorem getStats_setA_self (m : CBState) (k : String) (s : CircuitStats) :
    getStats (setA m k s) k = s := by
  unfold getStats
  rw [lookupA_setA, if_pos rfl]
  rfl

/-- C7: breaker lifecycle. With the default construction the thresholds
are `failure_threshold = 5`, `recovery_timeout = 30 s`,
`success_threshold = 2`. An open circuit whose recovery timeout has
elapsed is allowed exactly once by the very call that atomically moves
it to half-open with both counters reset (afterwards the state is no
longer open, so the transition cannot fire again); before the timeout it
is denied unchanged. A closed circuit opens exactly when the failure
count reaches the threshold, and a half-open circuit closes exactly when
the success count reaches the success threshold. -/
theorem C7_breaker_lifecycle :
    (mkCircuitBreaker none none 2).failure_threshold = 5 ∧
    (mkCircuitBreaker none none 2).recovery_timeout = 30 ∧
    (mkCircuitBreaker none none 2).success_threshold = 2 ∧
    (∀ (cb : CircuitBreaker) (m : CBState) (k : String) (now : Int),
      (getStats m k).state = CircuitState.opened →
      cb.recovery_timeout ≤ now - (getStats m k).opened_at →
      is_allowed cb m k now =
        (true, setA m k { getStats m k with
          state := CircuitState.halfOpen
          failure_count := 0
          success_count := 0 })) ∧
    (∀ (cb : CircuitBreaker) (m : CBState) (k : String) (now : Int),
      (getStats m k).state = CircuitState.opened →
      now - (getStats m k).opened_at < cb.recovery_timeout →
      is_allowed cb m k now = (false, setA m k (getStats m k))) ∧
    (∀ (cb : CircuitBreaker) (m : CBState) (k : String) (now : Int),
      (getStats m k).state = CircuitState.closed →
      cb.failure_threshold ≤ (getStats m k).failure_count + 1 →
      record_failure cb m k now =
        setA m k { getStats m k with
          state := CircuitState.opened
          failure_count := (getStats m k).failure_count + 1
          last_failure_time := now
          opened_at := now }) ∧
    (∀ (cb : CircuitBreaker) (m : CBState) (k : String) (now : Int),
      (getStats m k).state = CircuitState.closed →
      (getStats m k).failure_count + 1 < cb.failure_threshold →
      record_failure cb m k now =
        setA m k { getStats m k with
          failure_count := (getStats m k).failure_count + 1
          last_failure_time := now }) ∧
    (∀ (cb : CircuitBreaker) (m : CBState) (k : String),
      (getStats m k).state = CircuitState.halfOpen →
      cb.success_threshold ≤ (getStats m k).success_count + 1 →
      record_success cb m k =
        setA m k { getStats m k with
          state := CircuitState.closed
          failure_count := 0
          success_count := 0 }) ∧
    (∀ (cb : CircuitBreaker) (m : CBState) (k : String),
      (getStats m k).state = CircuitState.halfOpen →
      (getStats m k).success_count + 1 < cb.success_threshold →
      record_success cb m k =
        setA m k { getStats m k with
          success_count := (getStats m k).success_count + 1 }) := by
  refine ⟨rfl, rfl, rfl, ?_, ?_, ?_, ?_, ?_, ?_⟩
  · intro cb m k now h1 h2
    simp only [is_allowed, h1]
    rw [if_pos h2]
  · intro cb m k now h1 h2
    simp only [is_allowed, h1]
    rw [if_neg (not_le.mpr h2)]
  · intro cb m k now h1 h2
    simp only [record_failure, h1]
    rw [if_pos h2]
  · intro cb m k now h1 h2
    simp only [record_failure, h1]
    rw [if_neg (not_le.mpr h2)]
  · intro cb m k h1 h2
    simp only [record_success, h1]
    rw [if_pos h2]
  · intro cb m k h1 h2
    simp only [record_success, h1]
    rw [if_neg (not_le.mpr h2)]

/-- Witness for C7: an expired open circuit admits the probe and flips
to half-open; a half-open circuit with one prior success closes on the
second. -/
theorem C7_breaker_lifecycle_witness :
    is_allowed (mkCircuitBreaker none none 2)
      [("k", ⟨CircuitState.opened, 5, 0, 10, 10⟩)] "k" 40 =
      (true, setA [("k", ⟨CircuitState.opened, 5, 0, 10, 10⟩)] "k"
        ⟨CircuitState.halfOpen, 0, 0, 10, 10⟩) ∧
    record_success (mkCircuitBreaker none none 2)
      [("k", ⟨CircuitState.halfOpen, 0, 1, 10, 10⟩)] "k" =
      setA [("k", ⟨CircuitState.halfOpen, 0, 1, 10, 10⟩)] "k"
        ⟨CircuitState.closed, 0, 0, 10, 10⟩ :=
  ⟨C7_breaker_lifecycle.2.2.2.1 (mkCircuitBreaker none none 2)
      [("k", ⟨CircuitState.opened, 5, 0, 10, 10⟩)] "k" 40 (by decide)
      (by decide),
   C7_breaker_lifecycle.2.2.2.2.2.2.2.1 (mkCircuitBreaker none none 2)
      [("k", ⟨CircuitState.halfOpen, 0, 1, 10, 10⟩)] "k" (by decide)
      (by decide)⟩

/-- C10: every `is_allowed` call on a half-open circuit returns true and
leaves the stats unchanged — there is no cap on the number of admitted
probes — and the circuit leaves half-open only through `record_success`
reaching the success threshold (to closed) or through any
`record_failure` (back to open). -/
theorem C10_half_open_probes :
    (∀ (cb : CircuitBreaker) (m : CBState) (k : String) (now : Int),
      (getStats m k).state = CircuitState.halfOpen →
      is_allowed cb m k now = (true, setA m k (getStats m k))) ∧
    (∀ (cb : CircuitBreaker) (m : CBState) (k : String),
      (getStats m k).state = CircuitState.halfOpen →
      ((getStats (record_success cb m k) k).state = CircuitState.closed ↔
        cb.success_threshold ≤ (getStats m k).success_count + 1) ∧
      ((getStats m k).success_count + 1 < cb.success_threshold →
        (getStats (record_success cb m k) k).state
          = CircuitState.halfOpen)) ∧
    (∀ (cb : CircuitBreaker) (m : CBState) (k : String) (now : Int),
      (getStats m k).state = CircuitState.halfOpen →
      (getStats (record_failure cb m k now) k).state
        = CircuitState.opened) := by
  refine ⟨?_, ?_, ?_⟩
  · intro cb m k now h1
    simp only [is_allowed, h1]
  · intro cb m k h1
    constructor
    · simp only [record_success, h1]
      by_cases h2 : cb.success_threshold ≤ (getStats m k).success_count + 1
      · rw [if_pos h2, getStats_setA_self]
        simp [h2]
      · rw [if_neg h2, getStats_setA_self]
        simpa [h1] using h2
    · intro h2
      simp only [record_success, h1]
      rw [if_neg (not_le.mpr h2), getStats_setA_self]
  · intro cb m k now h1
    simp only [record_failure, h1]
    rw [getStats_setA_self]

/-! ## Sliding-window limiter lemmas (claim C8) -/

theorem lookupA_cleanupWindow (w : List (Int × Nat)) (minValid s : Int)
    (h : minValid ≤ s) :
    lookupA (cleanupWindow minValid w) s = lookupA w s := by
  induction w with
  | nil => rfl
  | cons hd tl ih =>
    obtain ⟨s0, c0⟩ := hd
    by_cases h0 : minValid ≤ s0
    · rw [cleanupWindow, List.filter_cons_of_pos (by simpa using h0)]
      simp only [lookupA]
      rw [cleanupWindow] at ih
      rw [ih]
    · rw [cleanupWindow, List.filter_cons_of_neg (by simpa using h0)]
      have hne : ¬s0 = s := fun he => h0 (he ▸ h)
      simp only [lookupA, if_neg hne]
      rw [cleanupWindow] at ih
      rw [ih]

theorem lookupA_cons {α β : Type} [DecidableEq α] (k0 : α) (v0 : β)
    (tl : List (α × β)) (k : α) :
    lookupA ((k0, v0) :: tl) k = if k0 = k then some v0 else lookupA tl k :=
  rfl

theorem lookupA_eq_none {α β : Type} [DecidableEq α]
    (l : List (α × β)) (k : α) (h : k ∉ l.map Prod.fst) :
    lookupA l k = none := by
  induction l with
  | nil => rfl
  | cons hd tl ih =>
    obtain ⟨k0, v0⟩ := hd
    simp only [List.map_cons, List.mem_cons, not_or] at h
    rw [lookupA_cons, if_neg (fun he => h.1 he.symm)]
    exact ih h.2

theorem lookupA_cleanup_windows (ws : List (String × List (Int × Nat)))
    (minValid : Int) (k : String) (hnd : (ws.map Prod.fst).Nodup) :
    lookupA ((ws.map (fun kv => (kv.1, cleanupWindow minValid kv.2))).filter
        (fun kv => kv.2 ≠ [])) k
      = match lookupA ws k with
        | none => none
        | some w =>
          if cleanupWindow minValid w = [] then none
          else some (cleanupWindow minValid w) := by
  induction ws with
  | nil => rfl
  | cons hd tl ih =>
    obtain ⟨k0, w0⟩ := hd
    rw [List.map_cons, List.nodup_cons] at hnd
    by_cases hk : k0 = k
    · subst hk
      rw [lookupA_cons, if_pos rfl, List.map_cons]
      show _ = if cleanupWindow minValid w0 = [] then none
        else some (cleanupWindow minValid w0)
      by_cases hp : cleanupWindow minValid w0 = []
      · rw [List.filter_cons_of_neg (by simpa using hp), if_pos hp]
        refine lookupA_eq_none _ _ (fun hmem => hnd.1 ?_)
        obtain ⟨kv, hkv, hfst⟩ := List.mem_map.mp hmem
        have hkv2 := List.mem_of_mem_filter hkv
        obtain ⟨kv0, hkv0, hkveq⟩ := List.mem_map.mp hkv2
        refine List.mem_map.mpr ⟨kv0, hkv0, ?_⟩
        rw [← hkveq] at hfst
        exact hfst
      · rw [List.filter_cons_of_pos (by simpa using hp), if_neg hp,
          lookupA_cons, if_pos rfl]
    · rw [lookupA_cons, if_neg hk, List.map_cons]
      by_cases hp : cleanupWindow minValid w0 = []
      · rw [List.filter_cons_of_neg (by simpa using hp)]
        exact ih hnd.2
      · rw [List.filter_cons_of_pos (by simpa using hp), lookupA_cons,
          if_neg hk]
        exact ih hnd.2

theorem getCount_cleanupState (L : SlidingWindowLimiter)
    (st : LimiterState) (now : ℚ) (k : String) (s : Int)
    (hnd : (st.windows.map Prod.fst).Nodup)
    (h : currentSlot L now - (L.slot_count : Int) ≤ s) :
    getCount (keyWindow (cleanupState L st now) k) s
      = getCount (keyWindow st k) s := by
  unfold cleanupState
  split
  · rfl
  · simp only [keyWindow]
    rw [lookupA_cleanup_windows st.windows _ k hnd]
    cases hlw : lookupA st.windows k with
    | none => rfl
    | some w =>
      show getCount ((if cleanupWindow (currentSlot L now
          - (L.slot_count : Int)) w = [] then none
        else some (cleanupWindow (currentSlot L now - (L.slot_count : Int))
          w)).getD []) s = getCount w s
      by_cases hp : cleanupWindow (currentSlot L now - (L.slot_count : Int))
          w = []
      · rw [if_pos hp]
        show getCount [] s = getCount w s
        unfold getCount
        rw [← lookupA_cleanupWindow w _ s h, hp]
      · rw [if_neg hp]
        show getCount (cleanupWindow (currentSlot L now
          - (L.slot_count : Int)) w) s = getCount w s
        unfold getCount
        rw [lookupA_cleanupWindow w _ s h]

theorem foldl_add_congr (slots : List Int) (f g : Int → Nat) (a : Nat)
    (h : ∀ s ∈ slots, f s = g s) :
    slots.foldl (fun acc s => acc + f s) a
      = slots.foldl (fun acc s => acc + g s) a := by
  induction slots generalizing a with
  | nil => rfl
  | cons x xs ih =>
    simp only [List.foldl_cons]
    rw [h x (by simp), ih _ (fun s hs => h s (List.mem_cons_of_mem _ hs))]

theorem windowSlots_bound (L : SlidingWindowLimiter) (now : ℚ) (s : Int)
    (h : s ∈ windowSlots L now) :
    currentSlot L now - (L.slot_count : Int) ≤ s := by
  unfold windowSlots at h
  obtain ⟨i, hi, rfl⟩ := List.mem_map.mp h
  have h0 : 0 ≤ (i : Int) := Int.natCast_nonneg i
  omega

theorem windowSum_cleanupState (L : SlidingWindowLimiter)
    (st : LimiterState) (k : String) (now : ℚ)
    (hnd : (st.windows.map Prod.fst).Nodup) :
    windowSum L (cleanupState L st now) k now = windowSum L st k now := by
  unfold windowSum
  refine foldl_add_congr _ _ _ _ (fun s hs => ?_)
  exact getCount_cleanupState L st now k s hnd (windowSlots_bound L now s hs)

/-- C8, counterexample: with `max_requests = 1`, `window_seconds = 1`,
`slot_count = 2` (slot duration ½ s), a second request at `now = 1` is
denied with `retry_after = max(1, reset_at − int(now)) = 1`, while the
claim's formula `reset_at − now` gives 0. -/
theorem C8_counterexample :
    (check ⟨1, 1, 2, 300⟩ ((check ⟨1, 1, 2, 300⟩ ⟨[], 0⟩ "k" 1).2) "k"
      1).1.allowed = false ∧
    (check ⟨1, 1, 2, 300⟩ ((check ⟨1, 1, 2, 300⟩ ⟨[], 0⟩ "k" 1).2) "k"
      1).1.retry_after = 1 ∧
    (check ⟨1, 1, 2, 300⟩ ((check ⟨1, 1, 2, 300⟩ ⟨[], 0⟩ "k" 1).2) "k"
      1).1.reset_at - pyInt 1 = 0 ∧
    ((1 : Int) ≠ 0) := by
  have hd : slotDuration ⟨1, 1, 2, 300⟩ = 1 / 2 := by
    norm_num [slotDuration]
  have hcs : currentSlot ⟨1, 1, 2, 300⟩ 1 = 2 := by
    rw [currentSlot, hd, pyInt]
    norm_num
  have hws : windowSlots ⟨1, 1, 2, 300⟩ 1 = [1, 2] := by
    rw [windowSlots]
    simp only [hcs]
    norm_num [List.range_succ]
  have hclean : cleanupState ⟨1, 1, 2, 300⟩ ⟨[], 0⟩ 1 = ⟨[], 0⟩ := by
    rw [cleanupState, if_pos]
    norm_num
  have hsum0 : windowSum ⟨1, 1, 2, 300⟩ ⟨[], 0⟩ "k" 1 = 0 := by
    simp [windowSum, hws, keyWindow, getCount, lookupA]
  have h1 : (check ⟨1, 1, 2, 300⟩ ⟨[], 0⟩ "k" 1).2 =
      ⟨[("k", [(2, 1)])], 0⟩ := by
    simp only [check, hclean, hcs, hsum0]
    rw [if_neg (by norm_num)]
    simp [keyWindow, getCount, lookupA, setA]
  have hclean2 : cleanupState ⟨1, 1, 2, 300⟩ ⟨[("k", [(2, 1)])], 0⟩ 1 =
      ⟨[("k", [(2, 1)])], 0⟩ := by
    rw [cleanupState, if_pos]
    norm_num
  have hsum1 : windowSum ⟨1, 1, 2, 300⟩ ⟨[("k", [(2, 1)])], 0⟩ "k" 1
      = 1 := by
    simp [windowSum, hws, keyWindow, getCount, lookupA]
  have h2 : check ⟨1, 1, 2, 300⟩ ⟨[("k", [(2, 1)])], 0⟩ "k" 1
      = (⟨false, 1, 0, 1, 1⟩, ⟨[("k", [(2, 1)])], 0⟩) := by
    simp only [check, hclean2, hcs, hsum1]
    rw [if_pos (by norm_num)]
    have hreset : pyInt (((2 + 1 : Int) : ℚ)
        * slotDuration ⟨1, 1, 2, 300⟩) = 1 := by
      rw [hd, pyInt]
      norm_num
    have hnowInt : pyInt 1 = 1 := by
      rw [pyInt]
      norm_num
    rw [hreset, hnowInt]
    norm_num [keyWindow, lookupA, setA]
  rw [h1, h2]
  refine ⟨rfl, rfl, ?_, by norm_num⟩
  show (1 : Int) - pyInt 1 = 0
  rw [pyInt]
  norm_num

/-- C8, amended: for every `check(key)` call on a limiter state with
unique window keys, the request is allowed iff the window sum at entry
is strictly below `max_requests`; when allowed, within the current
window only the current slot's count for that key is incremented (by
one) and `remaining = max_requests − sum − 1`; when denied, no count
within the current window changes and
`retry_after = max(1, reset_at − int(now))` with `remaining = 0`.
(Slots older than the window may additionally be dropped by the
periodic cleanup, which does not affect any window sum.) -/
theorem C8_check_amended (L : SlidingWindowLimiter) (st : LimiterState)
    (k : String) (now : ℚ)
    (hnd : (st.windows.map Prod.fst).Nodup) :
    ((check L st k now).1.allowed = true ↔
      windowSum L st k now < L.max_requests) ∧
    (∀ (k' : String) (s : Int), s ∈ windowSlots L now →
      getCount (keyWindow (check L st k now).2 k') s =
        getCount (keyWindow st k') s +
          (if (check L st k now).1.allowed = true ∧ k' = k
              ∧ s = currentSlot L now then 1 else 0)) ∧
    ((check L st k now).1.allowed = true →
      (check L st k now).1.remaining =
        (L.max_requests : Int) - (windowSum L st k now : Int) - 1) ∧
    ((check L st k now).1.allowed = false →
      (check L st k now).1.retry_after =
        max 1 ((check L st k now).1.reset_at - pyInt now) ∧
      (check L st k now).1.remaining = 0) := by
  have hsum := windowSum_cleanupState L st k now hnd
  by_cases hc : L.max_requests ≤ windowSum L (cleanupState L st now) k now
  · have hch : check L st k now =
        (⟨false, L.max_requests, 0,
          pyInt (((currentSlot L now + 1 : Int) : ℚ) * slotDuration L),
          max 1 (pyInt (((currentSlot L now + 1 : Int) : ℚ)
            * slotDuration L) - pyInt now)⟩,
         ⟨setA (cleanupState L st now).windows k
            (keyWindow (cleanupState L st now) k),
          (cleanupState L st now).last_cleanup⟩) := by
      simp only [check]
      rw [if_pos hc]
    refine ⟨?_, ?_, ?_, ?_⟩
    · rw [hch]
      exact iff_of_false (by simp) (not_lt.mpr (hsum ▸ hc))
    · intro k' s hs
      have hb := windowSlots_bound L now s hs
      rw [hch]
      show getCount (keyWindow
        (⟨setA (cleanupState L st now).windows k
          (keyWindow (cleanupState L st now) k),
         (cleanupState L st now).last_cleanup⟩ : LimiterState) k') s = _
      unfold keyWindow
      rw [lookupA_setA]
      by_cases hk' : k = k'
      · subst hk'
        rw [if_pos rfl, Option.getD_some]
        have := getCount_cleanupState L st now k s hnd hb
        unfold keyWindow at this
        rw [this]
        simp
      · rw [if_neg hk']
        have hcl := getCount_cleanupState L st now k' s hnd hb
        unfold keyWindow at hcl
        rw [hcl]
        simp
    · intro ha
      rw [hch] at ha
      exact absurd ha (by simp)
    · intro _
      rw [hch]
      exact ⟨rfl, rfl⟩
  · have hch : check L st k now =
        (⟨true, L.max_requests,
          (L.max_requests : Int)
            - (windowSum L (cleanupState L st now) k now : Int) - 1,
          pyInt (((currentSlot L now + 1 : Int) : ℚ) * slotDuration L), 0⟩,
         ⟨setA (cleanupState L st now).windows k
            (setA (keyWindow (cleanupState L st now) k) (currentSlot L now)
              (getCount (keyWindow (cleanupState L st now) k)
                (currentSlot L now) + 1)),
          (cleanupState L st now).last_cleanup⟩) := by
      simp only [check]
      rw [if_neg hc]
    refine ⟨?_, ?_, ?_, ?_⟩
    · rw [hch]
      exact iff_of_true rfl (hsum ▸ not_le.mp hc)
    · intro k' s hs
      have hb := windowSlots_bound L now s hs
      have hcl := getCount_cleanupState L st now k' s hnd hb
      rw [hch]
      show getCount (keyWindow
        (⟨setA (cleanupState L st now).windows k
          (setA (keyWindow (cleanupState L st now) k) (currentSlot L now)
            (getCount (keyWindow (cleanupState L st now) k)
              (currentSlot L now) + 1)),
         (cleanupState L st now).last_cleanup⟩ : LimiterState) k') s = _
      unfold keyWindow
      rw [lookupA_setA]
      by_cases hk' : k = k'
      · subst hk'
        rw [if_pos rfl, Option.getD_some]
        unfold getCount
        rw [lookupA_setA]
        by_cases hss : currentSlot L now = s
        · rw [if_pos hss, Option.getD_some]
          unfold keyWindow at hcl
          unfold getCount at hcl
          rw [← hss] at hcl ⊢
          rw [hcl]
          simp
        · rw [if_neg hss]
          unfold keyWindow at hcl
          unfold getCount at hcl
          rw [hcl]
          have hne : ¬s = currentSlot L now := fun h => hss h.symm
          simp [hne]
      · rw [if_neg hk']
        unfold keyWindow at hcl
        rw [hcl]
        have hne : ¬k' = k := fun h => hk' h.symm
        simp [hne]
    · intro _
      rw [hch]
      show (L.max_requests : Int)
          - (windowSum L (cleanupState L st now) k now : Int) - 1 = _
      rw [hsum]
    · intro ha
      rw [hch] at ha
      exact absurd ha (by simp)

/-! ## Dispatcher and orchestrator lemmas (claim C9) -/

theorem foldl_pick_mem {α : Type} (f : α → α → Prop)
    [inst : ∀ a b, Decidable (f a b)] (c : α) (cs : List α) :
    cs.foldl (fun best x => if f best x then x else best) c ∈ c :: cs := by
  induction cs generalizing c with
  | nil => simp
  | cons x xs ih =>
    simp only [List.foldl_cons]
    rcases List.mem_cons.mp (ih (if f c x then x else c)) with h | h
    · rw [h]
      by_cases hb : f c x
      · rw [if_pos hb]
        simp
      · rw [if_neg hb]
        simp
    · exact List.mem_cons_of_mem _ (List.mem_cons_of_mem _ h)

theorem mem_scoredList_not_excluded (env : DispatchEnv) (model : String)
    (ex : List String) (x : Provider × String × ℚ)
    (hx : x ∈ scoredList env model ex) : x.1.id ∉ ex := by
  simp only [scoredList] at hx
  obtain ⟨q, hq, hf⟩ := List.mem_filterMap.mp hx
  have hcond := (List.mem_filter.mp hq).2
  simp only [Bool.and_eq_true, decide_eq_true_eq] at hcond
  split at hf
  all_goals split at hf
  all_goals
    first
      | (injection hf with hf2
         rw [← hf2]
         exact hcond.2)
      | exact Option.noConfusion hf

theorem get_provider_not_excluded (env : DispatchEnv) (model : String)
    (ex : List String) (p : Provider) (rm : String)
    (h : get_provider_for_model env model ex = some (p, rm)) :
    p.id ∉ ex := by
  unfold get_provider_for_model at h
  cases hsl : scoredList env model ex with
  | nil =>
    rw [hsl] at h
    exact Option.noConfusion h
  | cons s rest =>
    rw [hsl] at h
    injection h with h2
    have hp1 : (rest.foldl
        (fun best x => if best.2.2 < x.2.2 then x else best) s).1 = p :=
      congrArg Prod.fst h2
    have hmem := foldl_pick_mem
      (fun best x : Provider × String × ℚ => best.2.2 < x.2.2) s rest
    rw [← hsl] at hmem
    have hne := mem_scoredList_not_excluded env model ex _ hmem
    rw [hp1] at hne
    exact hne

/-- Unfolding equation: no selection on this attempt. -/
theorem chatLoop_succ_none (env : Nat → AttemptEnv) (model : String)
    (r attempt : Nat) (tried : List String) (lastErr : Option Nat)
    (fwds : List (Nat × Provider × String))
    (hdp : get_provider_for_model (env attempt).dispatch model tried
      = none) :
    chatLoop env model (r + 1) attempt tried lastErr fwds
      = if attempt = 1 then (ChatResult.notFound, fwds)
        else
          (match lastErr with
           | some st => ChatResult.errorResponse st
           | none => ChatResult.badGateway, fwds) := by
  simp only [chatLoop, hdp]

/-- Unfolding equation: a selection whose forward yields a response. -/
theorem chatLoop_succ_resp (env : Nat → AttemptEnv) (model : String)
    (r attempt : Nat) (tried : List String) (lastErr : Option Nat)
    (fwds : List (Nat × Provider × String)) (p : Provider) (rm : String)
    (st : Nat)
    (hdp : get_provider_for_model (env attempt).dispatch model tried
      = some (p, rm))
    (hfw : (env attempt).forward = ForwardResult.resp st) :
    chatLoop env model (r + 1) attempt tried lastErr fwds
      = if is2xx st = true then
          (ChatResult.success st, fwds ++ [(attempt, p, rm)])
        else
          chatLoop env model r (attempt + 1) (tried ++ [p.id]) (some st)
            (fwds ++ [(attempt, p, rm)]) := by
  simp only [chatLoop, hdp, hfw]

/-- Unfolding equation: a selection whose forward raises. -/
theorem chatLoop_succ_exn (env : Nat → AttemptEnv) (model : String)
    (r attempt : Nat) (tried : List String) (lastErr : Option Nat)
    (fwds : List (Nat × Provider × String)) (p : Provider) (rm : String)
    (msg : String)
    (hdp : get_provider_for_model (env attempt).dispatch model tried
      = some (p, rm))
    (hfw : (env attempt).forward = ForwardResult.exn msg) :
    chatLoop env model (r + 1) attempt tried lastErr fwds
      = chatLoop env model r (attempt + 1) (tried ++ [p.id]) lastErr
          (fwds ++ [(attempt, p, rm)]) := by
  simp only [chatLoop, hdp, hfw]

theorem chatLoop_trace_append (env : Nat → AttemptEnv) (model : String)
    (remaining : Nat) :
    ∀ (attempt : Nat) (tried : List String) (lastErr : Option Nat)
      (fwds0 : List (Nat × Provider × String)),
    chatLoop env model remaining attempt tried lastErr fwds0
      = ((chatLoop env model remaining attempt tried lastErr []).1,
         fwds0 ++ (chatLoop env model remaining attempt tried lastErr
          []).2) := by
  induction remaining with
  | zero =>
    intro attempt tried lastErr fwds0
    cases lastErr <;> simp [chatLoop]
  | succ r ih =>
    intro attempt tried lastErr fwds0
    cases hdp : get_provider_for_model (env attempt).dispatch model tried
      with
    | none =>
      rw [chatLoop_succ_none env model r attempt tried lastErr fwds0 hdp,
        chatLoop_succ_none env model r attempt tried lastErr [] hdp]
      by_cases ha : attempt = 1
      · rw [if_pos ha, if_pos ha]
        simp
      · rw [if_neg ha, if_neg ha]
        cases lastErr <;> simp
    | some pr =>
      obtain ⟨p, rm⟩ := pr
      cases hfw : (env attempt).forward with
      | resp st =>
        rw [chatLoop_succ_resp env model r attempt tried lastErr fwds0 p
            rm st hdp hfw,
          chatLoop_succ_resp env model r attempt tried lastErr [] p rm st
            hdp hfw]
        by_cases h2 : is2xx st = true
        · rw [if_pos h2, if_pos h2]
          simp
        · rw [if_neg h2, if_neg h2,
            ih (attempt + 1) (tried ++ [p.id]) (some st)
              (fwds0 ++ [(attempt, p, rm)]),
            ih (attempt + 1) (tried ++ [p.id]) (some st)
              ([] ++ [(attempt, p, rm)])]
          simp
      | exn msg =>
        rw [chatLoop_succ_exn env model r attempt tried lastErr fwds0 p
            rm msg hdp hfw,
          chatLoop_succ_exn env model r attempt tried lastErr [] p rm msg
            hdp hfw,
          ih (attempt + 1) (tried ++ [p.id]) lastErr
            (fwds0 ++ [(attempt, p, rm)]),
          ih (attempt + 1) (tried ++ [p.id]) lastErr
            ([] ++ [(attempt, p, rm)])]
        simp

theorem chatLoop_ids (env : Nat → AttemptEnv) (model : String)
    (remaining : Nat) :
    ∀ (attempt : Nat) (tried : List String) (lastErr : Option Nat),
    (((chatLoop env model remaining attempt tried lastErr []).2.map
      (fun t => t.2.1.id)).Nodup) ∧
    (∀ t ∈ (chatLoop env model remaining attempt tried lastErr []).2,
      t.2.1.id ∉ tried) := by
  induction remaining with
  | zero =>
    intro attempt tried lastErr
    cases lastErr <;> simp [chatLoop]
  | succ r ih =>
    intro attempt tried lastErr
    cases hdp : get_provider_for_model (env attempt).dispatch model tried
      with
    | none =>
      rw [chatLoop_succ_none env model r attempt tried lastErr [] hdp]
      by_cases ha : attempt = 1
      · rw [if_pos ha]
        simp
      · rw [if_neg ha]
        cases lastErr <;> simp
    | some pr =>
      obtain ⟨p, rm⟩ := pr
      have hpx : p.id ∉ tried :=
        get_provider_not_excluded _ model tried p rm hdp
      have hrec : ∀ (le' : Option Nat),
          ((((attempt, p, rm) :: (chatLoop env model r (attempt + 1)
            (tried ++ [p.id]) le' []).2).map (fun t => t.2.1.id)).Nodup) ∧
          (∀ t ∈ (attempt, p, rm) :: (chatLoop env model r (attempt + 1)
            (tried ++ [p.id]) le' []).2, t.2.1.id ∉ tried) := by
        intro le'
        obtain ⟨ihn, ihm⟩ := ih (attempt + 1) (tried ++ [p.id]) le'
        constructor
        · rw [List.map_cons, List.nodup_cons]
          refine ⟨?_, ihn⟩
          intro hmem
          obtain ⟨t, ht, hte⟩ := List.mem_map.mp hmem
          exact ihm t ht (hte ▸ List.mem_append_right tried (by simp))
        · intro t ht
          rcases List.mem_cons.mp ht with h0 | h0
          · rw [h0]
            exact hpx
          · intro habs
            exact ihm t h0 (List.mem_append_left _ habs)
      cases hfw : (env attempt).forward with
      | resp st =>
        rw [chatLoop_succ_resp env model r attempt tried lastErr [] p rm
            st hdp hfw]
        by_cases h2 : is2xx st = true
        · rw [if_pos h2]
          constructor
          · simp
          · intro t ht
            simp only [List.nil_append, List.mem_singleton] at ht
            rw [ht]
            exact hpx
        · rw [if_neg h2,
            chatLoop_trace_append env model r (attempt + 1)
              (tried ++ [p.id]) (some st) ([] ++ [(attempt, p, rm)])]
          simpa using hrec (some st)
      | exn msg =>
        rw [chatLoop_succ_exn env model r attempt tried lastErr [] p rm
            msg hdp hfw,
          chatLoop_trace_append env model r (attempt + 1)
            (tried ++ [p.id]) lastErr ([] ++ [(attempt, p, rm)])]
        simpa using hrec lastErr

theorem chatLoop_err (env : Nat → AttemptEnv) (model : String)
    (remaining : Nat) :
    ∀ (attempt : Nat) (tried : List String) (lastErr : Option Nat),
    (∀ st, (chatLoop env model remaining attempt tried lastErr []).1
        = ChatResult.errorResponse st →
      lastErrFold env lastErr
        (chatLoop env model remaining attempt tried lastErr []).2
        = some st) ∧
    ((chatLoop env model remaining attempt tried lastErr []).1
        = ChatResult.badGateway →
      lastErrFold env lastErr
        (chatLoop env model remaining attempt tried lastErr []).2
        = none) := by
  induction remaining with
  | zero =>
    intro attempt tried lastErr
    cases lastErr with
    | none =>
      refine ⟨fun st h => ?_, fun _ => rfl⟩
      exact absurd h (by simp [chatLoop])
    | some st0 =>
      constructor
      · intro st h
        simp only [chatLoop] at h ⊢
        injection h with h1
        rw [h1]
        rfl
      · intro h
        exact absurd h (by simp [chatLoop])
  | succ r ih =>
    intro attempt tried lastErr
    cases hdp : get_provider_for_model (env attempt).dispatch model tried
      with
    | none =>
      rw [chatLoop_succ_none env model r attempt tried lastErr [] hdp]
      by_cases ha : attempt = 1
      · rw [if_pos ha]
        exact ⟨fun st h => absurd h (by simp),
               fun h => absurd h (by simp)⟩
      · rw [if_neg ha]
        cases lastErr with
        | none =>
          refine ⟨fun st h => absurd h (by simp), fun _ => rfl⟩
        | some st0 =>
          refine ⟨fun st h => ?_, fun h => absurd h (by simp)⟩
          injection h with h1
          rw [h1]
          rfl
    | some pr =>
      obtain ⟨p, rm⟩ := pr
      cases hfw : (env attempt).forward with
      | resp st' =>
        rw [chatLoop_succ_resp env model r attempt tried lastErr [] p rm
            st' hdp hfw]
        by_cases h2 : is2xx st' = true
        · rw [if_pos h2]
          exact ⟨fun st h => absurd h (by simp),
                 fun h => absurd h (by simp)⟩
        · rw [if_neg h2,
            chatLoop_trace_append env model r (attempt + 1)
              (tried ++ [p.id]) (some st') ([] ++ [(attempt, p, rm)])]
          obtain ⟨ih1, ih2⟩ := ih (attempt + 1) (tried ++ [p.id])
            (some st')
          have hstep : forwardStep env lastErr (attempt, p, rm)
              = some st' := by
            rw [forwardStep, hfw]
            exact if_neg h2
          constructor
          · intro st h
            show lastErrFold env lastErr ((attempt, p, rm)
              :: (chatLoop env model r (attempt + 1) (tried ++ [p.id])
                (some st') []).2) = some st
            rw [lastErrFold, List.foldl_cons, hstep]
            exact ih1 st h
          · intro h
            show lastErrFold env lastErr ((attempt, p, rm)
              :: (chatLoop env model r (attempt + 1) (tried ++ [p.id])
                (some st') []).2) = none
            rw [lastErrFold, List.foldl_cons, hstep]
            exact ih2 h
      | exn msg =>
        rw [chatLoop_succ_exn env model r attempt tried lastErr [] p rm
            msg hdp hfw,
          chatLoop_trace_append env model r (attempt + 1)
            (tried ++ [p.id]) lastErr ([] ++ [(attempt, p, rm)])]
        obtain ⟨ih1, ih2⟩ := ih (attempt + 1) (tried ++ [p.id]) lastErr
        have hstep : forwardStep env lastErr (attempt, p, rm)
            = lastErr := by
          rw [forwardStep, hfw]
        constructor
        · intro st h
          show lastErrFold env lastErr ((attempt, p, rm)
            :: (chatLoop env model r (attempt + 1) (tried ++ [p.id])
              lastErr []).2) = some st
          rw [lastErrFold, List.foldl_cons, hstep]
          exact ih1 st h
        · intro h
          show lastErrFold env lastErr ((attempt, p, rm)
            :: (chatLoop env model r (attempt + 1) (tried ++ [p.id])
              lastErr []).2) = none
          rw [lastErrFold, List.foldl_cons, hstep]
          exact ih2 h

theorem chatLoop_ne_notFound (env : Nat → AttemptEnv) (model : String)
    (remaining : Nat) :
    ∀ (attempt : Nat) (tried : List String) (lastErr : Option Nat)
      (fwds : List (Nat × Provider × String)), 2 ≤ attempt →
    (chatLoop env model remaining attempt tried lastErr fwds).1
      ≠ ChatResult.notFound := by
  induction remaining with
  | zero =>
    intro attempt tried lastErr fwds _
    cases lastErr <;> simp [chatLoop]
  | succ r ih =>
    intro attempt tried lastErr fwds ha
    cases hdp : get_provider_for_model (env attempt).dispatch model tried
      with
    | none =>
      rw [chatLoop_succ_none env model r attempt tried lastErr fwds hdp,
        if_neg (by omega)]
      cases lastErr <;> simp
    | some pr =>
      obtain ⟨p, rm⟩ := pr
      cases hfw : (env attempt).forward with
      | resp st =>
        rw [chatLoop_succ_resp env model r attempt tried lastErr fwds p
            rm st hdp hfw]
        by_cases h2 : is2xx st = true
        · rw [if_pos h2]
          simp
        · rw [if_neg h2]
          exact ih (attempt + 1) _ _ _ (by omega)
      | exn msg =>
        rw [chatLoop_succ_exn env model r attempt tried lastErr fwds p rm
            msg hdp hfw]
        exact ih (attempt + 1) _ _ _ (by omega)

/-! ## Claim C9 -/

/-- C9: the retry loop of `chat_completions`. The result is the 404
`model_not_found` envelope exactly when the dispatcher returns no
selection on attempt 1 (a later no-selection breaks the loop and falls
through to the error fallback instead); the forwarded providers within
one request have pairwise distinct ids (each selected id is added to
`tried_provider_ids`, which the dispatcher excludes); and when the loop
falls through, the result is the last captured non-2xx upstream
response when one exists, else the 502 `upstream_error` envelope. -/
theorem C9_chat_retry_loop (env : Nat → AttemptEnv) (model : String)
    (maxR : Nat) (h : 1 ≤ maxR) :
    ((chat_completions env model maxR).1 = ChatResult.notFound ↔
      get_provider_for_model (env 1).dispatch model [] = none) ∧
    (((chat_completions env model maxR).2.map
      (fun t => t.2.1.id)).Nodup) ∧
    (∀ st, (chat_completions env model maxR).1
        = ChatResult.errorResponse st →
      lastErrFold env none (chat_completions env model maxR).2
        = some st) ∧
    ((chat_completions env model maxR).1 = ChatResult.badGateway →
      lastErrFold env none (chat_completions env model maxR).2
        = none) := by
  obtain ⟨r, rfl⟩ : ∃ r, maxR = r + 1 := ⟨maxR - 1, by omega⟩
  refine ⟨?_, (chatLoop_ids env model (r + 1) 1 [] none).1,
    (chatLoop_err env model (r + 1) 1 [] none).1,
    (chatLoop_err env model (r + 1) 1 [] none).2⟩
  show (chatLoop env model (r + 1) 1 [] none []).1
      = ChatResult.notFound ↔ _
  cases hdp : get_provider_for_model (env 1).dispatch model [] with
  | none =>
    rw [chatLoop_succ_none env model r 1 [] none [] hdp, if_pos rfl]
    simp
  | some pr =>
    obtain ⟨p, rm⟩ := pr
    refine iff_of_false ?_ (by simp)
    cases hfw : (env 1).forward with
    | resp st =>
      rw [chatLoop_succ_resp env model r 1 [] none [] p rm st hdp hfw]
      by_cases h2 : is2xx st = true
      · rw [if_pos h2]
        simp
      · rw [if_neg h2]
        exact chatLoop_ne_notFound env model r 2 _ _ _ (by omega)
    | exn msg =>
      rw [chatLoop_succ_exn env model r 1 [] none [] p rm msg hdp hfw]
      exact chatLoop_ne_notFound env model r 2 _ _ _ (by omega)

/-- Witness for C9: with no providers the first dispatch returns no
selection and the orchestrator returns the 404 envelope. -/
theorem C9_chat_retry_loop_witness :
    (chat_completions (fun _ => emptyAttemptEnv) "m" 1).1
      = ChatResult.notFound :=
  (C9_chat_retry_loop (fun _ => emptyAttemptEnv) "m" 1
    (le_refl 1)).1.mpr rfl

/-- Witness for C8 on the default limiter and an empty state. -/
theorem C8_check_amended_witness :
    ((check ⟨60, 60, 12, 300⟩ ⟨[], 0⟩ "k" 0).1.allowed = true ↔
      windowSum ⟨60, 60, 12, 300⟩ ⟨[], 0⟩ "k" 0 < 60) ∧
    getCount (keyWindow (check ⟨60, 60, 12, 300⟩ ⟨[], 0⟩ "k" 0).2 "k")
        (currentSlot ⟨60, 60, 12, 300⟩ 0) =
      getCount (keyWindow (⟨[], 0⟩ : LimiterState) "k")
        (currentSlot ⟨60, 60, 12, 300⟩ 0) +
        (if (check ⟨60, 60, 12, 300⟩ ⟨[], 0⟩ "k" 0).1.allowed = true
            ∧ "k" = "k" ∧ currentSlot ⟨60, 60, 12, 300⟩ 0
              = currentSlot ⟨60, 60, 12, 300⟩ 0 then 1 else 0) :=
  ⟨(C8_check_amended ⟨60, 60, 12, 300⟩ ⟨[], 0⟩ "k" 0 (by simp)).1,
   (C8_check_amended ⟨60, 60, 12, 300⟩ ⟨[], 0⟩ "k" 0 (by simp)).2.1 "k"
     (currentSlot ⟨60, 60, 12, 300⟩ 0)
     (List.mem_map.mpr ⟨11, by norm_num, by push_cast; omega⟩)⟩

/-- Witness for C10 on a concrete half-open circuit. -/
theorem C10_half_open_probes_witness :
    is_allowed (mkCircuitBreaker none none 2)
      [("k", ⟨CircuitState.halfOpen, 0, 0, 10, 10⟩)] "k" 11 =
      (true, setA [("k", ⟨CircuitState.halfOpen, 0, 0, 10, 10⟩)] "k"
        ⟨CircuitState.halfOpen, 0, 0, 10, 10⟩) ∧
    (getStats (record_failure (mkCircuitBreaker none none 2)
      [("k", ⟨CircuitState.halfOpen, 0, 0, 10, 10⟩)] "k" 11) "k").state
      = CircuitState.opened :=
  ⟨C10_half_open_probes.1 (mkCircuitBreaker none none 2)
      [("k", ⟨CircuitState.halfOpen, 0, 0, 10, 10⟩)] "k" 11 (by decide),
   C10_half_open_probes.2.2 (mkCircuitBreaker none none 2)
      [("k", ⟨CircuitState.halfOpen, 0, 0, 10, 10⟩)] "k" 11 (by decide)⟩

end Hermes
